import Mathlib

/-!
Verification development for the Azalea language core
(src/azalea.h, src/azalea.cpp): tokenizer, recursive-descent parser and
tree-walking evaluator, shallowly embedded in Lean.

Modelling conventions:
* C++ `double` is idealised as `ℚ` (all arithmetic appearing in the core is
  exact on the inputs exercised here).
* C++ `int` arithmetic that can overflow is modelled with an explicit
  32-bit two's-complement wrap (`wrap32`).
* `std::shared_ptr<Value>` is `Option Value`; `none` models a null pointer.
  Dereferencing a null pointer is modelled as the explicit error outcome
  `EErr.nullDeref` (in C++ this is undefined behaviour).
* Loops in `Parser` that can fail to make progress are modelled with a fuel
  parameter; `none` as a parse result means the fuel ran out, and a result
  of `none` for every fuel witnesses non-termination of the C++ loop.
-/

namespace Azalea

attribute [local semireducible] Rat.add Rat.mul Rat.sub Rat.inv Rat.ofScientific

/-- 32-bit two's-complement wrap, modelling overflowing C++ `int`
arithmetic (undefined behaviour in the standard; wrap-around on the
target platforms). -/
def wrap32 (n : Int) : Int :=
  (n + 2 ^ 31) % 2 ^ 32 - 2 ^ 31

/-- The first power of two past the double range, `2 ^ 1024`, written as
a literal so that comparisons against it evaluate without unfolding the
exponentiation. -/
def maxDoubleNat : Nat :=
  179769313486231590772930519078902473361797697894230657273430081157732675805500963132708477322407536021120113879871393357658789768814416622492847430639474124377767893424865485276302219601246094119453082952085005768838150682342462881473913110540827237163350510684586298239947245938479716304835356329624224137216

/-- `TokenType` from azalea.h (KEYWORD, IDENTIFIER, NUMBER, STRING, SYMBOL,
EOF_TOKEN). -/
inductive TokenType where
  | keyword
  | identifier
  | number
  | string
  | symbol
  | eofTok
  deriving DecidableEq, Repr

/-- `Token` from azalea.h: type, lexeme, line, column. -/
structure Token where
  type : TokenType
  value : String
  line : Nat
  col : Nat
  deriving DecidableEq, Repr

/-- `NodeType` from azalea.h. -/
inductive NodeType where
  | program
  | form
  | act
  | call
  | ifStmt
  | loop
  | give
  | say
  | put
  | binaryOp
  | unaryOp
  | identifier
  | literal
  | block
  | listLit
  | mapLit
  deriving DecidableEq, Repr

/-- `ASTNode` from azalea.h: node type, string payload `value`
(default-initialised to `""` by the constructor and only ever assigned by
`parseBinaryOp` and `parseSay`), children, and the token it was built
from. -/
inductive ASTNode where
  | mk (type : NodeType) (value : String) (children : List ASTNode) (token : Token)

def ASTNode.type : ASTNode → NodeType
  | .mk t _ _ _ => t

def ASTNode.value : ASTNode → String
  | .mk _ v _ _ => v

def ASTNode.children : ASTNode → List ASTNode
  | .mk _ _ cs _ => cs

def ASTNode.token : ASTNode → Token
  | .mk _ _ _ tk => tk

/-- The `Value` variant from azalea.h.  `func` carries the data the
closure built in the ACT case of `Runtime::evaluate` captures: the
parameter names and the body node. -/
inductive Value where
  | num (q : ℚ)
  | text (s : String)
  | bool (b : Bool)
  | list (l : List Value)
  | map (m : List (String × Value))
  | void
  | func (params : List String) (body : ASTNode)

/-- ASCII digit test (C `isdigit`, "C" locale): codes 48-57. -/
def isDigitC (c : Char) : Bool :=
  decide (48 ≤ c.toNat ∧ c.toNat ≤ 57)

/-- ASCII letter test (C `isalpha`, "C" locale): codes 97-122 and 65-90. -/
def isAlphaC (c : Char) : Bool :=
  decide ((97 ≤ c.toNat ∧ c.toNat ≤ 122) ∨ (65 ≤ c.toNat ∧ c.toNat ≤ 90))

def isAlnumC (c : Char) : Bool :=
  isAlphaC c || isDigitC c

/-- C `isspace` in the "C" locale: space (32), \t \n \v \f \r (9-13). -/
def isSpaceC (c : Char) : Bool :=
  decide (c.toNat = 32 ∨ (9 ≤ c.toNat ∧ c.toNat ≤ 13))

/-- Numeric value of a list of ASCII digits, most significant first. -/
def natOfDigits (ds : List Char) : Nat :=
  ds.foldl (fun a c => a * 10 + (c.toNat - 48)) 0

/-- Model of `std::stod` (C locale, decimal forms): skip leading
whitespace, optional sign, digits with at most one point, optional
exponent (consumed only when well-formed), longest valid prefix; `none`
when no conversion is possible (`std::invalid_argument`) or the value
exceeds the double range (`std::out_of_range`).  Hexadecimal, `inf` and
`nan` spellings are not modelled: no lexeme of the language and no input
appearing in the claims takes those forms, and gradual underflow is
ignored for the same reason. -/
def stodOpt (s : String) : Option ℚ :=
  let cs := s.data.dropWhile (fun c => isSpaceC c)
  let (sgn, cs) : ℚ × List Char :=
    match cs with
    | '-' :: t => (-1, t)
    | '+' :: t => (1, t)
    | t => (1, t)
  let ds1 := cs.takeWhile (fun c => isDigitC c)
  let cs1 := cs.dropWhile (fun c => isDigitC c)
  let (ds2, cs2) : List Char × List Char :=
    match cs1 with
    | '.' :: t => (t.takeWhile (fun c => isDigitC c), t.dropWhile (fun c => isDigitC c))
    | t => ([], t)
  if ds1 = [] ∧ ds2 = [] then none
  else
    let mant : ℚ := (natOfDigits ds1 : ℚ) + (natOfDigits ds2 : ℚ) / 10 ^ ds2.length
    let e : Int :=
      match cs2 with
      | 'e' :: t => expDigits t
      | 'E' :: t => expDigits t
      | _ => 0
    let v := sgn * mant * (10 : ℚ) ^ e
    if maxDoubleNat * v.den < v.num.natAbs then none else some v
where
  /-- Exponent part after `e`/`E`: optional sign, then digits; `0` (and no
  consumption in the C++ original) when no digit follows. -/
  expDigits (t : List Char) : Int :=
    match t with
    | '-' :: u => -(natOfDigits (u.takeWhile (fun c => isDigitC c)) : Int)
    | '+' :: u => (natOfDigits (u.takeWhile (fun c => isDigitC c)) : Int)
    | u => (natOfDigits (u.takeWhile (fun c => isDigitC c)) : Int)

/-- `numberWords` from azalea.cpp.  The `four_g` entry is written
`4 * 1024 * 1024 * 1024` in the source, an `int` multiplication that
overflows 32 bits; the wrap is kept explicit here. -/
def numberWords : List (String × ℚ) :=
  [("zero", 0), ("one", 1), ("two", 2), ("three", 3), ("four", 4),
   ("five", 5), ("six", 6), ("seven", 7), ("eight", 8), ("nine", 9),
   ("ten", 10), ("eleven", 11), ("twelve", 12), ("thirteen", 13),
   ("fourteen", 14), ("fifteen", 15), ("sixteen", 16), ("seventeen", 17),
   ("eighteen", 18), ("nineteen", 19), ("twenty", 20), ("thirty", 30),
   ("forty", 40), ("fifty", 50), ("sixty", 60), ("seventy", 70),
   ("eighty", 80), ("ninety", 90), ("hundred", 100), ("thousand", 1000),
   ("million", 1000000), ("four_zero_zero_zero", 4000),
   ("four_g", (wrap32 (4 * 1024 * 1024 * 1024) : ℚ))]

/-- `wordToNumber` from azalea.cpp: table lookup first, then
`std::stod`, else `0.0`. -/
def wordToNumber (word : String) : ℚ :=
  match numberWords.lookup word with
  | some v => v
  | none => (stodOpt word).getD 0

/-- Truncation toward zero, modelling `static_cast<int>` on a double
(range errors aside, which no claim exercises). -/
def qtrunc (q : ℚ) : Int :=
  q.num / (q.den : Int)

/-- Rendering of `std::to_string(double)`: fixed six decimal places.
Ties at exactly half an ulp of the sixth digit are rounded up here;
`%f` rounds the exact binary double, which never differs on the inputs
arising in this development (small integers and halves). -/
def numToString6 (q : ℚ) : String :=
  if q < 0 then "-" ++ render (-q) else render q
where
  pad6 (s : String) : String :=
    String.mk (List.replicate (6 - s.length) '0') ++ s
  render (a : ℚ) : String :=
    let scaled : Nat := (Int.floor (a * 1000000 + (1 : ℚ) / 2)).toNat
    toString (scaled / 1000000) ++ "." ++ pad6 (toString (scaled % 1000000))

mutual

/-- `Value::toString` from azalea.cpp. -/
def Value.toString : Value → String
  | .num q => numToString6 q
  | .text s => s
  | .bool b => if b then "true" else "false"
  | .void => "void"
  | .list l => "[" ++ listJoin l ++ "]"
  | .map m => "\x7b" ++ mapJoin m ++ "\x7d"
  | .func _ _ => "unknown"

/-- Comma-joined rendering of a list's elements (the LIST case loop). -/
def listJoin : List Value → String
  | [] => ""
  | [v] => Value.toString v
  | v :: rest => Value.toString v ++ ", " ++ listJoin rest

/-- Comma-joined `key: value` rendering (the MAP case loop). -/
def mapJoin : List (String × Value) → String
  | [] => ""
  | [(k, v)] => k ++ ": " ++ Value.toString v
  | (k, v) :: rest => k ++ ": " ++ Value.toString v ++ ", " ++ mapJoin rest

end

/-- `Value::toNumber` from azalea.cpp: `stod` first for TEXT, falling
back to `wordToNumber`; `0.0` for LIST/MAP/VOID/FUNC. -/
def Value.toNumber : Value → ℚ
  | .num q => q
  | .bool b => if b then 1 else 0
  | .text s =>
    match stodOpt s with
    | some v => v
    | none => wordToNumber s
  | _ => 0

/-- `Value::toBool` from azalea.cpp. -/
def Value.toBool : Value → Bool
  | .bool b => b
  | .num q => decide (q ≠ 0)
  | .text s => decide (s ≠ "")
  | _ => false

/-! ## Lexer (azalea.cpp, `Lexer::*`)

The lexer state is the fixed character list `cs` together with the mutable
`pos`, `line`, `col` members, passed and returned explicitly. -/

/-- `source[pos]`; out-of-range access never happens in the original under
its guards, the default is irrelevant. -/
def charAt (cs : List Char) (pos : Nat) : Char :=
  cs.getD pos (Char.ofNat 0)

/-- `Lexer::keywords` from azalea.cpp, verbatim (duplicates included). -/
def keywords : List String :=
  ["form", "act", "call", "give", "say", "do", "end", "if", "loop",
   "over", "under", "same", "not", "and", "or", "from", "to", "with",
   "as", "num", "text", "list", "map", "bool", "void", "put", "make",
   "on", "serve", "view", "read", "write", "net", "file", "vm", "play",
   "else", "plus", "minus", "times", "div", "show", "render", "style",
   "button", "btn", "input", "field", "image", "img", "label", "pane",
   "div", "box", "ul", "start", "route", "post", "delete", "del",
   "static", "files", "json", "send", "css", "link", "head", "body",
   "title", "h1", "h2", "h3", "p", "span", "a", "form", "select",
   "option", "table", "tr", "td", "th", "header", "footer", "nav",
   "section", "article", "aside", "main", "grid", "row", "col", "card",
   "let", "var", "const", "set", "create", "new", "def", "fn", "func",
   "return", "print", "output", "display", "when", "then", "while", "for",
   "each", "repeat", "until", "break", "continue", "switch", "case",
   "equals", "is", "are", "has", "have", "contains", "include",
   "add", "subtract", "multiply", "divide", "mod", "power", "sqrt",
   "greater", "less", "equal", "notequal", "andalso", "orelse",
   "color", "background", "bg", "width", "height", "margin", "padding",
   "border", "radius", "shadow", "font", "size", "weight", "family",
   "align", "center", "left", "right", "justify", "flex", "grid",
   "display", "position", "absolute", "relative", "fixed", "sticky",
   "top", "bottom", "left", "right", "zindex", "opacity", "transform",
   "transition", "animation", "hover", "active", "focus", "visited"]

/-- `Lexer::symbols` from azalea.cpp. -/
def symbolChars : List Char :=
  ['.', ',', '/', '?', '!', ';']

/-- `source.substr(start, len)` on the character list. -/
def substr (cs : List Char) (start len : Nat) : String :=
  String.mk ((cs.drop start).take len)

/-- `Lexer::skipWhitespace`. -/
def skipWs (cs : List Char) (pos line col : Nat) : Nat × Nat × Nat :=
  if pos < cs.length ∧ isSpaceC (charAt cs pos) then
    if charAt cs pos = '\n' then skipWs cs (pos + 1) (line + 1) 1
    else skipWs cs (pos + 1) line (col + 1)
  else (pos, line, col)
termination_by cs.length - pos
decreasing_by all_goals omega

/-- The `//` comment loop of `Lexer::skipComment`: consume to end of
line (the `line` member is not touched there). -/
def lineGo (cs : List Char) (pos col : Nat) : Nat × Nat :=
  if pos < cs.length ∧ charAt cs pos ≠ '\n' then lineGo cs (pos + 1) (col + 1)
  else (pos, col)
termination_by cs.length - pos
decreasing_by all_goals omega

/-- The `/*` comment loop of `Lexer::skipComment`.  The loop guard is
`pos < source.length() - 1`, leaving the final character of an
unterminated comment unconsumed. -/
def blockGo (cs : List Char) (pos line col : Nat) : Nat × Nat × Nat :=
  if pos < cs.length - 1 then
    if charAt cs pos = '*' ∧ charAt cs (pos + 1) = '/' then (pos + 2, line, col + 2)
    else if charAt cs pos = '\n' then blockGo cs (pos + 1) (line + 1) 1
    else blockGo cs (pos + 1) line (col + 1)
  else (pos, line, col)
termination_by cs.length - pos
decreasing_by all_goals omega

/-- `Lexer::skipComment`.  Only ever invoked with `pos + 1 < cs.length`
and a `//` or `/*` at `pos` (the guards in `tokenize`), under which the
size_t subtraction `length() - 1` and ℕ subtraction agree. -/
def skipComment (cs : List Char) (pos line col : Nat) : Nat × Nat × Nat :=
  if pos < cs.length - 1 ∧ charAt cs pos = '/' ∧ charAt cs (pos + 1) = '/' then
    let (p, c) := lineGo cs pos col
    (p, line, c)
  else if pos < cs.length - 1 ∧ charAt cs pos = '/' ∧ charAt cs (pos + 1) = '*' then
    blockGo cs (pos + 2) line (col + 2)
  else (pos, line, col)

/-- The scanning loop of `Lexer::readNumber`: digits with at most one
dot; a second dot ends the literal. -/
def numGo (cs : List Char) (pos col : Nat) (hasDot : Bool) : Nat × Nat :=
  if pos < cs.length ∧ (isDigitC (charAt cs pos) ∨ charAt cs pos = '.') then
    if charAt cs pos = '.' then
      if hasDot then (pos, col)
      else numGo cs (pos + 1) (col + 1) true
    else numGo cs (pos + 1) (col + 1) hasDot
  else (pos, col)
termination_by cs.length - pos
decreasing_by all_goals omega

/-- `Lexer::readNumber`: token, new `pos`, new `col`. -/
def readNumber (cs : List Char) (pos line col : Nat) : Token × Nat × Nat :=
  let pc := numGo cs pos col false
  (Token.mk .number (substr cs pos (pc.1 - pos)) line pc.2, pc.1, pc.2)

/-- The scanning loop of `Lexer::readString`: consume to the closing
quote, a backslash swallowing the following character verbatim. -/
def strGo (cs : List Char) (pos col : Nat) : Nat × Nat :=
  if pos < cs.length ∧ charAt cs pos ≠ '"' then
    if charAt cs pos = '\\' ∧ pos + 1 < cs.length then strGo cs (pos + 2) (col + 2)
    else strGo cs (pos + 1) (col + 1)
  else (pos, col)
termination_by cs.length - pos
decreasing_by all_goals omega

/-- `Lexer::readString`: token, new `pos`, new `col` (the position is
advanced past the closing quote even when the string is unterminated). -/
def readString (cs : List Char) (pos line col : Nat) : Token × Nat × Nat :=
  let pc := strGo cs (pos + 1) (col + 1)
  (Token.mk .string (substr cs (pos + 1) (pc.1 - (pos + 1))) line (pc.2 + 1),
   pc.1 + 1, pc.2 + 1)

/-- End of the run of digits starting at `pos` (the `numberEnd` scan of
`Lexer::readIdentifier`). -/
def digitsEnd (cs : List Char) (pos : Nat) : Nat :=
  if pos < cs.length ∧ isDigitC (charAt cs pos) then digitsEnd cs (pos + 1)
  else pos
termination_by cs.length - pos
decreasing_by all_goals omega

/-- The main loop of `Lexer::readIdentifier`: alphanumerics and
underscores. -/
def identGo (cs : List Char) (pos col : Nat) : Nat × Nat :=
  if pos < cs.length ∧ (isAlnumC (charAt cs pos) ∨ charAt cs pos = '_') then
    identGo cs (pos + 1) (col + 1)
  else (pos, col)
termination_by cs.length - pos
decreasing_by all_goals omega

/-- `Lexer::readIdentifier`, including the number-prefix split path for
"5say"-style lexemes (dead code when called from `tokenize`, which only
invokes it on a letter or underscore).  Note that in the split path the
original computes `col = col - (pos - numberEnd)` after `pos = numberEnd`,
so `col` is in fact unchanged. -/
def readIdentifier (cs : List Char) (pos line col : Nat) : Token × Nat × Nat :=
  let start := pos
  let swn := isDigitC (charAt cs pos)
  let numberEnd := if swn then digitsEnd cs pos else pos
  let pc0 :=
    if swn ∧ numberEnd < cs.length ∧
        (isAlphaC (charAt cs numberEnd) ∨ charAt cs numberEnd = '_') then
      (numberEnd, col + (numberEnd - start))
    else (pos, col)
  let pc := identGo cs pc0.1 pc0.2
  if swn ∧ numberEnd < pc.1 then
    (Token.mk .number (substr cs start (numberEnd - start)) line pc.2, numberEnd, pc.2)
  else
    let value := substr cs start (pc.1 - start)
    let ty := if keywords.contains value then TokenType.keyword else TokenType.identifier
    (Token.mk ty value line pc.2, pc.1, pc.2)

/-- `Lexer::readSymbol`. -/
def readSymbol (cs : List Char) (pos line col : Nat) : Token × Nat × Nat :=
  (Token.mk .symbol (String.mk [charAt cs pos]) line (col + 1), pos + 1, col + 1)

/-! Progress facts about the scanning loops, needed for the termination
of the `tokenize` main loop. -/

theorem skipWs_ge (cs : List Char) :
    ∀ pos line col, pos ≤ (skipWs cs pos line col).1 := by
  intro pos line col
  induction pos, line, col using skipWs.induct cs with
  | case1 pos line col h hnl ih =>
    rw [skipWs, if_pos h, if_pos hnl]; omega
  | case2 pos line col h hnl ih =>
    rw [skipWs, if_pos h, if_neg hnl]; omega
  | case3 pos line col h =>
    rw [skipWs, if_neg h]

theorem lineGo_ge (cs : List Char) :
    ∀ pos col, pos ≤ (lineGo cs pos col).1 := by
  intro pos col
  induction pos, col using lineGo.induct cs with
  | case1 pos col h ih => rw [lineGo, if_pos h]; omega
  | case2 pos col h => rw [lineGo, if_neg h]

theorem blockGo_ge (cs : List Char) :
    ∀ pos line col, pos ≤ (blockGo cs pos line col).1 := by
  intro pos line col
  induction pos, line, col using blockGo.induct cs with
  | case1 pos line col h hstar =>
    rw [blockGo, if_pos h, if_pos hstar]; omega
  | case2 pos line col h hstar hnl ih =>
    rw [blockGo, if_pos h, if_neg hstar, if_pos hnl]; omega
  | case3 pos line col h hstar hnl ih =>
    rw [blockGo, if_pos h, if_neg hstar, if_neg hnl]; omega
  | case4 pos line col h => rw [blockGo, if_neg h]

theorem skipComment_gt (cs : List Char) (pos line col : Nat)
    (hs : charAt cs pos = '/') (hlen : pos + 1 < cs.length)
    (hnext : charAt cs (pos + 1) = '/' ∨ charAt cs (pos + 1) = '*') :
    pos < (skipComment cs pos line col).1 := by
  rcases hnext with hnext | hnext
  · have hguard : pos < cs.length - 1 ∧ charAt cs pos = '/' ∧ charAt cs (pos + 1) = '/' :=
      ⟨by omega, hs, hnext⟩
    rw [skipComment, if_pos hguard]
    have h1 : pos + 1 ≤ (lineGo cs (pos + 1) (col + 1)).1 := lineGo_ge cs (pos + 1) (col + 1)
    have hstep : lineGo cs pos col = lineGo cs (pos + 1) (col + 1) := by
      rw [lineGo]
      have : pos < cs.length ∧ charAt cs pos ≠ '\n' := by
        refine ⟨by omega, ?_⟩
        rw [hs]; decide
      rw [if_pos this]
    simp only [hstep]
    omega
  · have hguard1 : ¬ (pos < cs.length - 1 ∧ charAt cs pos = '/' ∧ charAt cs (pos + 1) = '/') := by
      rintro ⟨-, -, h2⟩
      rw [hnext] at h2
      exact absurd h2 (by decide)
    have hguard2 : pos < cs.length - 1 ∧ charAt cs pos = '/' ∧ charAt cs (pos + 1) = '*' :=
      ⟨by omega, hs, hnext⟩
    rw [skipComment, if_neg hguard1, if_pos hguard2]
    have := blockGo_ge cs (pos + 2) line (col + 2)
    omega

theorem numGo_ge (cs : List Char) :
    ∀ pos col hasDot, pos ≤ (numGo cs pos col hasDot).1 := by
  intro pos col hasDot
  induction pos, col, hasDot using numGo.induct cs with
  | case1 pos col h hdot =>
    rw [numGo, if_pos h, if_pos hdot]; simp
  | case2 pos col hasDot h hdot hd ih =>
    rw [numGo, if_pos h, if_pos hdot, if_neg hd]; omega
  | case3 pos col hasDot h hdot ih =>
    rw [numGo, if_pos h, if_neg hdot]; omega
  | case4 pos col hasDot h => rw [numGo, if_neg h]

theorem readNumber_gt (cs : List Char) (pos line col : Nat)
    (hlen : pos < cs.length) (hd : isDigitC (charAt cs pos) = true) :
    pos < (readNumber cs pos line col).2.1 := by
  show pos < (numGo cs pos col false).1
  rw [numGo]
  have hcond : pos < cs.length ∧ (isDigitC (charAt cs pos) = true ∨ charAt cs pos = '.') :=
    ⟨hlen, Or.inl hd⟩
  rw [if_pos hcond]
  by_cases hdot : charAt cs pos = '.'
  · rw [if_pos hdot]
    simp only [if_neg (by simp : ¬ (false = true))]
    have := numGo_ge cs (pos + 1) (col + 1) true
    omega
  · rw [if_neg hdot]
    have := numGo_ge cs (pos + 1) (col + 1) false
    omega

theorem strGo_ge (cs : List Char) :
    ∀ pos col, pos ≤ (strGo cs pos col).1 := by
  intro pos col
  induction pos, col using strGo.induct cs with
  | case1 pos col h hesc ih => rw [strGo, if_pos h, if_pos hesc]; omega
  | case2 pos col h hesc ih => rw [strGo, if_pos h, if_neg hesc]; omega
  | case3 pos col h => rw [strGo, if_neg h]

theorem readString_gt (cs : List Char) (pos line col : Nat) :
    pos < (readString cs pos line col).2.1 := by
  show pos < (strGo cs (pos + 1) (col + 1)).1 + 1
  have := strGo_ge cs (pos + 1) (col + 1)
  omega

theorem identGo_ge (cs : List Char) :
    ∀ pos col, pos ≤ (identGo cs pos col).1 := by
  intro pos col
  induction pos, col using identGo.induct cs with
  | case1 pos col h ih => rw [identGo, if_pos h]; omega
  | case2 pos col h => rw [identGo, if_neg h]

theorem readIdentifier_gt (cs : List Char) (pos line col : Nat)
    (hlen : pos < cs.length)
    (ha : isAlphaC (charAt cs pos) = true ∨ charAt cs pos = '_') :
    pos < (readIdentifier cs pos line col).2.1 := by
  have hnd : isDigitC (charAt cs pos) = false := by
    rcases ha with ha | ha
    · simp only [isAlphaC, decide_eq_true_eq] at ha
      simp only [isDigitC, decide_eq_false_iff_not]
      omega
    · rw [ha]; decide
  have halnum : isAlnumC (charAt cs pos) = true ∨ charAt cs pos = '_' := by
    rcases ha with ha | ha
    · exact Or.inl (by simp [isAlnumC, ha])
    · exact Or.inr ha
  have hstep : pos < (identGo cs pos col).1 := by
    rw [identGo]
    rw [if_pos ⟨hlen, halnum⟩]
    have := identGo_ge cs (pos + 1) (col + 1)
    omega
  unfold readIdentifier
  simp only [hnd, Bool.false_eq_true, false_and, if_false, if_neg (fun h => h)]
  exact hstep

/-- `Lexer::tokenize`, main loop: returns the tokens produced by the loop
together with the final `line` and `col` (the `EndOfInput` token is
appended by `tokenize` afterwards, as in the original). -/
def tokGo (cs : List Char) (pos line col : Nat) : List Token × Nat × Nat :=
  if h : pos < cs.length then
    let s := skipWs cs pos line col
    if h2 : s.1 < cs.length then
      if hc : charAt cs s.1 = '/' ∧ s.1 + 1 < cs.length ∧
          (charAt cs (s.1 + 1) = '/' ∨ charAt cs (s.1 + 1) = '*') then
        let sc := skipComment cs s.1 s.2.1 s.2.2
        tokGo cs sc.1 sc.2.1 sc.2.2
      else if hd : isDigitC (charAt cs s.1) then
        let r := readNumber cs s.1 s.2.1 s.2.2
        let rest := tokGo cs r.2.1 s.2.1 r.2.2
        (r.1 :: rest.1, rest.2)
      else if charAt cs s.1 = '"' then
        let r := readString cs s.1 s.2.1 s.2.2
        let rest := tokGo cs r.2.1 s.2.1 r.2.2
        (r.1 :: rest.1, rest.2)
      else if hi : isAlphaC (charAt cs s.1) = true ∨ charAt cs s.1 = '_' then
        let r := readIdentifier cs s.1 s.2.1 s.2.2
        let rest := tokGo cs r.2.1 s.2.1 r.2.2
        (r.1 :: rest.1, rest.2)
      else if symbolChars.contains (charAt cs s.1) then
        let r := readSymbol cs s.1 s.2.1 s.2.2
        let rest := tokGo cs r.2.1 s.2.1 r.2.2
        (r.1 :: rest.1, rest.2)
      else
        tokGo cs (s.1 + 1) s.2.1 (s.2.2 + 1)
    else ([], s.2.1, s.2.2)
  else ([], line, col)
termination_by cs.length - pos
decreasing_by
  · have h1 := skipWs_ge cs pos line col
    have h3 := skipComment_gt cs (skipWs cs pos line col).1 (skipWs cs pos line col).2.1
      (skipWs cs pos line col).2.2 hc.1 hc.2.1 hc.2.2
    omega
  · have h1 := skipWs_ge cs pos line col
    have h3 := readNumber_gt cs (skipWs cs pos line col).1 (skipWs cs pos line col).2.1
      (skipWs cs pos line col).2.2 h2 hd
    omega
  · have h1 := skipWs_ge cs pos line col
    have h3 := readString_gt cs (skipWs cs pos line col).1 (skipWs cs pos line col).2.1
      (skipWs cs pos line col).2.2
    omega
  · have h1 := skipWs_ge cs pos line col
    have h3 := readIdentifier_gt cs (skipWs cs pos line col).1 (skipWs cs pos line col).2.1
      (skipWs cs pos line col).2.2 h2 hi
    omega
  · have h1 := skipWs_ge cs pos line col
    simp only [readSymbol]
    omega
  · have h1 := skipWs_ge cs pos line col
    omega

/-- `Lexer::tokenize`: run the main loop and append the `EndOfInput`
token carrying the final line and column. -/
def tokenize (source : String) : List Token :=
  let r := tokGo source.data 0 1 1
  r.1 ++ [Token.mk .eofTok "" r.2.1 r.2.2]

/-! ## Parser (azalea.cpp, `Parser::*`)

The parser state is the fixed token list `toks` and the index `pos`.
`Parser::current()` returns a synthetic `EndOfInput` token past the end
and `Parser::advance()` saturates at `tokens.size()`.

Some parser loops make no progress on some inputs (see `pGive` and its
call sites), so every function takes a fuel argument, decremented on
every call; a `none` result means the fuel was exhausted.  A result of
`none` for every fuel on a fixed input witnesses non-termination of the
original loops on that input. -/

/-- `Parser::current()`. -/
def curTok (toks : List Token) (pos : Nat) : Token :=
  toks.getD pos (Token.mk .eofTok "" 0 0)

/-- Position after `Parser::advance()` (`pos++` capped at `tokens.size()`). -/
def nextPos (toks : List Token) (pos : Nat) : Nat :=
  if pos < toks.length then pos + 1 else pos

/-- A chain `match(v₁) || match(v₂) || …` of `Parser::match` calls: the
first matching keyword is consumed; nothing is consumed on failure. -/
def matchAny (toks : List Token) (pos : Nat) (vs : List String) : Bool × Nat :=
  if (curTok toks pos).type = .keyword ∧ (curTok toks pos).value ∈ vs then
    (true, nextPos toks pos)
  else (false, pos)

/-- Identifier-node wrapper `make_shared<ASTNode>(IDENTIFIER, tok)`; the
`value` field of the node is left at its default `""` (the parser never
assigns it). -/
def identNodeOf (tk : Token) : ASTNode :=
  ASTNode.mk .identifier "" [] tk

/-- The declaration keyword family accepted by `parseForm` (and used to
dispatch to it). -/
def formKws : List String :=
  ["form", "let", "var", "const", "set", "create", "make", "declare",
   "define", "init", "new"]

/-- The function-definition keyword family. -/
def actKws : List String :=
  ["act", "def", "fn", "func", "function", "method", "procedure"]

/-- The conditional keyword family. -/
def ifKws : List String :=
  ["if", "when", "whenever", "provided", "assuming", "given"]

/-- The loop keyword family. -/
def loopKws : List String :=
  ["loop", "while", "for", "repeat", "each", "foreach", "iterate"]

/-- The keywords dispatched to `parseGive` by `parse` and `parseBlock`.
Note that `parseGive` itself accepts only `give` and `return`. -/
def giveDispatchKws : List String :=
  ["give", "return", "yield", "send"]

/-- The output keyword family. -/
def sayKws : List String :=
  ["say", "print", "output", "display", "log", "echo", "show", "write"]

/-- The assignment keyword family. -/
def putKws : List String :=
  ["put", "assign", "update"]

/-- `opPrecedence` from `Parser::parseBinaryOp`. -/
def opPrec : List (String × Nat) :=
  [("or", 1), ("and", 2), ("same", 3), ("not", 3), ("over", 4), ("under", 4),
   ("plus", 5), ("minus", 5), ("times", 6), ("div", 6)]

/-- `htmlElements` from `Parser::parse`. -/
def htmlElements : List String :=
  ["h1", "h2", "h3", "h4", "h5", "h6", "p", "div", "span", "button",
   "input", "form", "img", "a", "ul", "ol", "li", "table", "tr", "td",
   "header", "footer", "nav", "main", "section", "article", "aside"]

/-- `moduleNames` from `Parser::parse`. -/
def moduleNamesP : List String :=
  ["view", "web", "net", "file", "serve", "play", "markdown",
   "query", "database", "csv", "go", "channel", "run"]

/-- The quote-stripping of the say-label (`'label'` → `label`). -/
def stripTicks (s : String) : String :=
  if 2 ≤ s.length ∧ s.data.getD 0 (Char.ofNat 0) = Char.ofNat 39 ∧
      s.data.getD (s.length - 1) (Char.ofNat 0) = Char.ofNat 39 then
    String.mk ((s.data.drop 1).take (s.length - 2))
  else s

/-- `Parser::parsePrimary`: always consumes exactly one token; any token
that is not a number, string, identifier or `true`/`false` keyword
becomes an identifier node. -/
def pPrimary (toks : List Token) (pos : Nat) : ASTNode × Nat :=
  let tk := curTok toks pos
  if tk.type = .number then (ASTNode.mk .literal "" [] tk, nextPos toks pos)
  else if tk.type = .string then (ASTNode.mk .literal "" [] tk, nextPos toks pos)
  else if tk.type = .identifier then (identNodeOf tk, nextPos toks pos)
  else if tk.type = .keyword ∧ (tk.value = "true" ∨ tk.value = "false") then
    (ASTNode.mk .literal "" [] tk, nextPos toks pos)
  else (identNodeOf tk, nextPos toks pos)

mutual

/-- `Parser::parseForm`.  Inner `none` is the `nullptr` result on a
non-declaration keyword. -/
def pForm (fuel : Nat) (toks : List Token) (pos : Nat) :
    Option (Option ASTNode × Nat) :=
  match fuel with
  | 0 => none
  | f + 1 =>
    let tok := curTok toks pos
    if tok.value ∈ formKws then
      let pos := nextPos toks pos
      let typeCh : List ASTNode × Nat :=
        if ((curTok toks pos).type = .identifier ∨ (curTok toks pos).type = .keyword) ∧
            (curTok toks pos).value ∈ ["num", "text", "bool", "list", "map", "void"] then
          ([identNodeOf (curTok toks pos)], nextPos toks pos)
        else ([], pos)
      let pos := typeCh.2
      let nameCh : List ASTNode × Nat :=
        if (curTok toks pos).type = .identifier then
          ([identNodeOf (curTok toks pos)], nextPos toks pos)
        else ([], pos)
      let pos := nameCh.2
      let ma := matchAny toks pos ["from", "is", "equals", "to", "as", "becomes"]
      if ma.1 ∨ ((curTok toks pos).type = .symbol ∧ (curTok toks pos).value = "=") then
        let pos1 := ma.2
        let pos2 :=
          if (curTok toks pos1).type = .symbol ∧ (curTok toks pos1).value = "=" then
            nextPos toks pos1
          else pos1
        match pExpr f toks pos2 with
        | none => none
        | some (e, pos3) =>
          some (some (ASTNode.mk .form "" (typeCh.1 ++ nameCh.1 ++ [e]) tok), pos3)
      else if ¬ (curTok toks pos).type = .eofTok ∧
          (curTok toks pos).value ≠ "end" ∧ (curTok toks pos).value ≠ "do" then
        match pExpr f toks pos with
        | none => none
        | some (e, pos3) =>
          some (some (ASTNode.mk .form "" (typeCh.1 ++ nameCh.1 ++ [e]) tok), pos3)
      else
        some (some (ASTNode.mk .form "" (typeCh.1 ++ nameCh.1) tok), pos)
    else some (none, pos)

/-- The parameter loop of `Parser::parseAct`. -/
def pActParams (fuel : Nat) (toks : List Token) (pos : Nat) (inParens : Bool)
    (acc : List ASTNode) : Option (List ASTNode × Nat) :=
  match fuel with
  | 0 => none
  | f + 1 =>
    if pos < toks.length ∧ (curTok toks pos).type ≠ .eofTok then
      let ma := matchAny toks pos ["do", "then", "when", "begin"]
      if ma.1 then some (acc, ma.2)
      else if inParens ∧ (curTok toks pos).type = .symbol ∧ (curTok toks pos).value = ")" then
        some (acc, nextPos toks pos)
      else if (curTok toks pos).type = .symbol ∧
          ((curTok toks pos).value = "," ∨ (curTok toks pos).value = ";") then
        pActParams f toks (nextPos toks pos) inParens acc
      else if (curTok toks pos).type = .identifier then
        pActParams f toks (nextPos toks pos) inParens
          (acc ++ [identNodeOf (curTok toks pos)])
      else some (acc, pos)
    else some (acc, pos)

/-- `Parser::parseAct`. -/
def pAct (fuel : Nat) (toks : List Token) (pos : Nat) :
    Option (Option ASTNode × Nat) :=
  match fuel with
  | 0 => none
  | f + 1 =>
    let tok := curTok toks pos
    if tok.value ∈ actKws then
      let pos := nextPos toks pos
      let nameCh : List ASTNode × Nat :=
        if (curTok toks pos).type = .identifier then
          ([identNodeOf (curTok toks pos)], nextPos toks pos)
        else ([], pos)
      let pos := nameCh.2
      let parens : Bool × Nat :=
        if (curTok toks pos).type = .symbol ∧ (curTok toks pos).value = "(" then
          (true, nextPos toks pos)
        else (false, pos)
      match pActParams f toks parens.2 parens.1 [] with
      | none => none
      | some (params, pos) =>
        let ma := matchAny toks pos ["do", "then", "when", "begin"]
        if ma.1 then
          match pBlock f toks ma.2 with
          | none => none
          | some (blk, pos') =>
            some (some (ASTNode.mk .act "" (nameCh.1 ++ params ++ [blk]) tok), pos')
        else if (curTok toks pos).type = .symbol ∧ (curTok toks pos).value = "\x7b" then
          match pBlock f toks (nextPos toks pos) with
          | none => none
          | some (blk, pos') =>
            let pos'' :=
              if (curTok toks pos').type = .symbol ∧ (curTok toks pos').value = "\x7d" then
                nextPos toks pos'
              else pos'
            some (some (ASTNode.mk .act "" (nameCh.1 ++ params ++ [blk]) tok), pos'')
        else
          match pBlock f toks pos with
          | none => none
          | some (blk, pos') =>
            some (some (ASTNode.mk .act "" (nameCh.1 ++ params ++ [blk]) tok), pos')
    else some (none, pos)

/-- The argument loop of `Parser::parseCall`. -/
def pCallArgs (fuel : Nat) (toks : List Token) (pos : Nat) (acc : List ASTNode) :
    Option (List ASTNode × Nat) :=
  match fuel with
  | 0 => none
  | f + 1 =>
    if pos < toks.length ∧ (curTok toks pos).type ≠ .eofTok then
      if (curTok toks pos).value = "end" ∨ (curTok toks pos).value = "else" then
        some (acc, pos)
      else if (curTok toks pos).type = .keyword ∧
          (curTok toks pos).value ∈ ["put", "with", "to", "on", "give", "then", "when"] then
        if pos + 1 < toks.length ∧
            ((toks.getD (pos + 1) (Token.mk .eofTok "" 0 0)).type = .identifier ∨
             (toks.getD (pos + 1) (Token.mk .eofTok "" 0 0)).type = .number ∨
             (toks.getD (pos + 1) (Token.mk .eofTok "" 0 0)).type = .string) then
          match pExpr f toks pos with
          | none => none
          | some (e, pos') => pCallArgs f toks pos' (acc ++ [e])
        else some (acc, pos)
      else
        match pExpr f toks pos with
        | none => none
        | some (e, pos') => pCallArgs f toks pos' (acc ++ [e])
    else some (acc, pos)

/-- `Parser::parseCall` (the `call` keyword is consumed unconditionally;
the dispatchers only call it on `call`). -/
def pCall (fuel : Nat) (toks : List Token) (pos : Nat) : Option (ASTNode × Nat) :=
  match fuel with
  | 0 => none
  | f + 1 =>
    let tok := curTok toks pos
    let pos := nextPos toks pos
    let nameCh : List ASTNode × Nat :=
      if (curTok toks pos).type = .identifier ∨ (curTok toks pos).type = .keyword then
        ([identNodeOf (curTok toks pos)], nextPos toks pos)
      else ([], pos)
    match pCallArgs f toks nameCh.2 [] with
    | none => none
    | some (args, pos') =>
      some (ASTNode.mk .call "" (nameCh.1 ++ args) tok, pos')

/-- `Parser::parseIf`. -/
def pIf (fuel : Nat) (toks : List Token) (pos : Nat) :
    Option (Option ASTNode × Nat) :=
  match fuel with
  | 0 => none
  | f + 1 =>
    let tok := curTok toks pos
    if tok.value ∈ ifKws then
      let pos := nextPos toks pos
      match pExpr f toks pos with
      | none => none
      | some (cond, pos) =>
        let thenRes : Option (ASTNode × Nat) :=
          let ma := matchAny toks pos ["do", "then", "begin"]
          if ma.1 then pBlock f toks ma.2
          else if (curTok toks pos).type = .symbol ∧ (curTok toks pos).value = "\x7b" then
            match pBlock f toks (nextPos toks pos) with
            | none => none
            | some (blk, pos') =>
              if (curTok toks pos').type = .symbol ∧ (curTok toks pos').value = "\x7d" then
                some (blk, nextPos toks pos')
              else some (blk, pos')
          else pBlock f toks pos
        match thenRes with
        | none => none
        | some (thenBlk, pos) =>
          let mae := matchAny toks pos ["else", "otherwise"]
          if mae.1 then
            let elseRes : Option (ASTNode × Nat) :=
              let mad := matchAny toks mae.2 ["do", "then"]
              if mad.1 then pBlock f toks mad.2
              else if (curTok toks mae.2).type = .symbol ∧ (curTok toks mae.2).value = "\x7b" then
                match pBlock f toks (nextPos toks mae.2) with
                | none => none
                | some (blk, pos') =>
                  if (curTok toks pos').type = .symbol ∧ (curTok toks pos').value = "\x7d" then
                    some (blk, nextPos toks pos')
                  else some (blk, pos')
              else pBlock f toks mae.2
            match elseRes with
            | none => none
            | some (elseBlk, pos') =>
              some (some (ASTNode.mk .ifStmt "" [cond, thenBlk, elseBlk] tok), pos')
          else
            some (some (ASTNode.mk .ifStmt "" [cond, thenBlk] tok), pos)
    else some (none, pos)

/-- `Parser::parseLoop`. -/
def pLoop (fuel : Nat) (toks : List Token) (pos : Nat) :
    Option (Option ASTNode × Nat) :=
  match fuel with
  | 0 => none
  | f + 1 =>
    let tok := curTok toks pos
    if tok.value ∈ loopKws then
      let pos := nextPos toks pos
      match pExpr f toks pos with
      | none => none
      | some (cnt, pos) =>
        let bodyRes : Option (ASTNode × Nat) :=
          let ma := matchAny toks pos ["do", "then", "begin"]
          if ma.1 then pBlock f toks ma.2
          else if (curTok toks pos).type = .symbol ∧ (curTok toks pos).value = "\x7b" then
            match pBlock f toks (nextPos toks pos) with
            | none => none
            | some (blk, pos') =>
              if (curTok toks pos').type = .symbol ∧ (curTok toks pos').value = "\x7d" then
                some (blk, nextPos toks pos')
              else some (blk, pos')
          else pBlock f toks pos
        match bodyRes with
        | none => none
        | some (body, pos') =>
          some (some (ASTNode.mk .loop "" [cnt, body] tok), pos')
    else some (none, pos)

/-- `Parser::parseGive`: accepts only `give` and `return`; on any other
keyword it returns `nullptr` without consuming anything. -/
def pGive (fuel : Nat) (toks : List Token) (pos : Nat) :
    Option (Option ASTNode × Nat) :=
  match fuel with
  | 0 => none
  | f + 1 =>
    let tok := curTok toks pos
    if tok.value = "give" ∨ tok.value = "return" then
      match pExpr f toks (nextPos toks pos) with
      | none => none
      | some (e, pos') => some (some (ASTNode.mk .give "" [e] tok), pos')
    else some (none, pos)

/-- `Parser::parseSay`, including the (dispatch-dead) leading repeat
count, the optional trailing repeat count, and the `name 'label'`
clause. -/
def pSay (fuel : Nat) (toks : List Token) (pos : Nat) :
    Option (Option ASTNode × Nat) :=
  match fuel with
  | 0 => none
  | f + 1 =>
    let tok0 := curTok toks pos
    let pre : Int × Nat :=
      if tok0.type = .number ∧ pos + 1 < toks.length then
        match stodOpt tok0.value with
        | some q => (qtrunc q, nextPos toks pos)
        | none => (1, pos)
      else (1, pos)
    let rc0 := pre.1
    let pos := pre.2
    let tok := curTok toks pos
    if tok.value ∈ sayKws then
      let pos := nextPos toks pos
      let pos :=
        if (curTok toks pos).type = .symbol ∧ (curTok toks pos).value = "." then
          nextPos toks pos
        else pos
      match pExpr f toks pos with
      | none => none
      | some (expr, pos) =>
        let rcp : Int × Nat :=
          if pos < toks.length ∧ (curTok toks pos).type = .number then
            match stodOpt (curTok toks pos).value with
            | some q => (qtrunc q, nextPos toks pos)
            | none => (rc0, pos)
          else (rc0, pos)
        let repeatCh : List ASTNode :=
          if 1 < rcp.1 then
            [ASTNode.mk .literal "" [] (Token.mk .number (toString rcp.1) 0 0)]
          else []
        let mn := matchAny toks rcp.2 ["name"]
        if mn.1 ∧ (curTok toks mn.2).type = .string then
          some (some (ASTNode.mk .say (stripTicks (curTok toks mn.2).value)
            ([expr] ++ repeatCh) tok), nextPos toks mn.2)
        else
          some (some (ASTNode.mk .say "" ([expr] ++ repeatCh) tok), mn.2)
    else some (none, pos)

/-- `Parser::parsePut` (the leading keyword is consumed unconditionally). -/
def pPut (fuel : Nat) (toks : List Token) (pos : Nat) : Option (ASTNode × Nat) :=
  match fuel with
  | 0 => none
  | f + 1 =>
    let tok := curTok toks pos
    let pos := nextPos toks pos
    match pExpr f toks pos with
    | none => none
    | some (v, pos) =>
      let mt := matchAny toks pos ["to"]
      if mt.1 then
        if (curTok toks mt.2).type = .identifier then
          some (ASTNode.mk .put "" [v, identNodeOf (curTok toks mt.2)] tok,
            nextPos toks mt.2)
        else some (ASTNode.mk .put "" [v] tok, mt.2)
      else if (curTok toks pos).type = .identifier then
        some (ASTNode.mk .put "" [v, identNodeOf (curTok toks pos)] tok,
          nextPos toks pos)
      else some (ASTNode.mk .put "" [v] tok, pos)

/-- `Parser::parseExpression`. -/
def pExpr (fuel : Nat) (toks : List Token) (pos : Nat) : Option (ASTNode × Nat) :=
  match fuel with
  | 0 => none
  | f + 1 => pBinOp f toks pos 0

/-- `Parser::parseBinaryOp`. -/
def pBinOp (fuel : Nat) (toks : List Token) (pos : Nat) (prec : Nat) :
    Option (ASTNode × Nat) :=
  match fuel with
  | 0 => none
  | f + 1 =>
    let pr := pPrimary toks pos
    pBinOpLoop f toks pr.2 prec pr.1

/-- The operator loop of `Parser::parseBinaryOp`.  The node for an
operator carries a fresh `Token(KEYWORD, op)` with no position, and the
node's `value` field is set to the operator. -/
def pBinOpLoop (fuel : Nat) (toks : List Token) (pos : Nat) (prec : Nat)
    (left : ASTNode) : Option (ASTNode × Nat) :=
  match fuel with
  | 0 => none
  | f + 1 =>
    if pos < toks.length then
      let tk := curTok toks pos
      if tk.type ≠ .keyword then some (left, pos)
      else
        match opPrec.lookup tk.value with
        | none => some (left, pos)
        | some p =>
          if p < prec then some (left, pos)
          else
            match pBinOp f toks (nextPos toks pos) (p + 1) with
            | none => none
            | some (right, pos') =>
              pBinOpLoop f toks pos' prec
                (ASTNode.mk .binaryOp tk.value [left, right] (Token.mk .keyword tk.value 0 0))
    else some (left, pos)

/-- `Parser::parseBlock`: the node records the token current at entry. -/
def pBlock (fuel : Nat) (toks : List Token) (pos : Nat) : Option (ASTNode × Nat) :=
  match fuel with
  | 0 => none
  | f + 1 =>
    match pBlockLoop f toks pos [] with
    | none => none
    | some (cs, pos') => some (ASTNode.mk .block "" cs (curTok toks pos), pos')

/-- The statement loop of `Parser::parseBlock`.  The `give`-family
dispatch shares the defect of `parse`: on `yield`/`send`, `parseGive`
consumes nothing and the loop repeats at the same position. -/
def pBlockLoop (fuel : Nat) (toks : List Token) (pos : Nat) (acc : List ASTNode) :
    Option (List ASTNode × Nat) :=
  match fuel with
  | 0 => none
  | f + 1 =>
    if pos < toks.length ∧ (curTok toks pos).type ≠ .eofTok then
      let ma := matchAny toks pos ["end", "finish", "done"]
      if ma.1 then some (acc, ma.2)
      else if (curTok toks pos).type = .symbol ∧ (curTok toks pos).value = "\x7d" then
        some (acc, pos)
      else if (curTok toks pos).type = .keyword then
        let kw := (curTok toks pos).value
        if kw ∈ formKws then
          match pForm f toks pos with
          | none => none
          | some (r, pos') => pBlockLoop f toks pos' (acc ++ r.toList)
        else if kw ∈ actKws then
          match pAct f toks pos with
          | none => none
          | some (r, pos') => pBlockLoop f toks pos' (acc ++ r.toList)
        else if kw = "call" then
          match pCall f toks pos with
          | none => none
          | some (n, pos') => pBlockLoop f toks pos' (acc ++ [n])
        else if kw ∈ ifKws then
          match pIf f toks pos with
          | none => none
          | some (r, pos') => pBlockLoop f toks pos' (acc ++ r.toList)
        else if kw ∈ loopKws then
          match pLoop f toks pos with
          | none => none
          | some (r, pos') => pBlockLoop f toks pos' (acc ++ r.toList)
        else if kw ∈ giveDispatchKws then
          match pGive f toks pos with
          | none => none
          | some (r, pos') => pBlockLoop f toks pos' (acc ++ r.toList)
        else if kw ∈ sayKws then
          match pSay f toks pos with
          | none => none
          | some (r, pos') => pBlockLoop f toks pos' (acc ++ r.toList)
        else if kw ∈ putKws then
          match pPut f toks pos with
          | none => none
          | some (n, pos') => pBlockLoop f toks pos' (acc ++ [n])
        else pBlockLoop f toks (nextPos toks pos) acc
      else
        match pExpr f toks pos with
        | none => none
        | some (e, pos') => pBlockLoop f toks pos' (acc ++ [e])
    else some (acc, pos)

/-- The argument loop shared by the implicit HTML-element and module
call branches of `Parser::parse`.  The `TokenType::NEWLINE` check in the
source refers to a member absent from the `TokenType` enum of azalea.h
and can never hold, so it is omitted. -/
def pImplicitArgs (fuel : Nat) (toks : List Token) (pos : Nat)
    (acc : List ASTNode) : Option (List ASTNode × Nat) :=
  match fuel with
  | 0 => none
  | f + 1 =>
    if pos < toks.length ∧ (curTok toks pos).type ≠ .eofTok then
      if (curTok toks pos).type = .keyword ∧
          (curTok toks pos).value ∈ ["do", "then", "\x7b", "end", "\x7d", "finish",
            "if", "loop", "form", "act", "call", "say", "give", "put"] then
        some (acc, pos)
      else
        match pExpr f toks pos with
        | none => none
        | some (e, pos') =>
          if pos' ≥ toks.length ∨ (curTok toks pos').type = .eofTok then
            some (acc ++ [e], pos')
          else pImplicitArgs f toks pos' (acc ++ [e])
    else some (acc, pos)

/-- The top-level statement loop of `Parser::parse`, including the
implicit HTML-element and module call desugarings. -/
def pTopLoop (fuel : Nat) (toks : List Token) (pos : Nat) (acc : List ASTNode) :
    Option (List ASTNode × Nat) :=
  match fuel with
  | 0 => none
  | f + 1 =>
    if pos < toks.length ∧ (curTok toks pos).type ≠ .eofTok then
      if (curTok toks pos).type = .keyword then
        let kw := (curTok toks pos).value
        if kw ∈ formKws then
          match pForm f toks pos with
          | none => none
          | some (r, pos') => pTopLoop f toks pos' (acc ++ r.toList)
        else if kw ∈ actKws then
          match pAct f toks pos with
          | none => none
          | some (r, pos') => pTopLoop f toks pos' (acc ++ r.toList)
        else if kw = "call" then
          match pCall f toks pos with
          | none => none
          | some (n, pos') => pTopLoop f toks pos' (acc ++ [n])
        else if kw ∈ ifKws then
          match pIf f toks pos with
          | none => none
          | some (r, pos') => pTopLoop f toks pos' (acc ++ r.toList)
        else if kw ∈ loopKws then
          match pLoop f toks pos with
          | none => none
          | some (r, pos') => pTopLoop f toks pos' (acc ++ r.toList)
        else if kw ∈ giveDispatchKws then
          match pGive f toks pos with
          | none => none
          | some (r, pos') => pTopLoop f toks pos' (acc ++ r.toList)
        else if kw ∈ sayKws then
          match pSay f toks pos with
          | none => none
          | some (r, pos') => pTopLoop f toks pos' (acc ++ r.toList)
        else if kw ∈ putKws then
          match pPut f toks pos with
          | none => none
          | some (n, pos') => pTopLoop f toks pos' (acc ++ [n])
        else if kw ∈ htmlElements then
          let tok := curTok toks pos
          let viewIdent := identNodeOf (Token.mk .identifier "view" tok.line tok.col)
          let elemIdent := identNodeOf tok
          match pImplicitArgs f toks (nextPos toks pos) [] with
          | none => none
          | some (args, pos') =>
            pTopLoop f toks pos'
              (acc ++ [ASTNode.mk .call "" ([viewIdent, elemIdent] ++ args) tok])
        else if kw ∈ moduleNamesP then
          let tok := curTok toks pos
          let modIdent := identNodeOf tok
          let pos1 := nextPos toks pos
          let methCh : List ASTNode × Nat :=
            if (curTok toks pos1).type = .identifier ∨ (curTok toks pos1).type = .keyword then
              ([identNodeOf (curTok toks pos1)], nextPos toks pos1)
            else ([], pos1)
          match pImplicitArgs f toks methCh.2 [] with
          | none => none
          | some (args, pos') =>
            pTopLoop f toks pos'
              (acc ++ [ASTNode.mk .call "" ([modIdent] ++ methCh.1 ++ args) tok])
        else pTopLoop f toks (nextPos toks pos) acc
      else pTopLoop f toks (nextPos toks pos) acc
    else some (acc, pos)

end

/-- `Parser::parse`: run the top-level loop and wrap the children in a
PROGRAM node carrying the token current at entry. -/
def parseProg (fuel : Nat) (toks : List Token) : Option ASTNode :=
  match fuel with
  | 0 => none
  | f + 1 =>
    match pTopLoop f toks 0 [] with
    | none => none
    | some (cs, _) => some (ASTNode.mk .program "" cs (curTok toks 0))

/-! ## Runtime (azalea.cpp, `Runtime::*`)

The mutable members of `Runtime` (globals, function table, module
registry, scope stack) and the text emitted through `print` form the
explicit state.  `std::shared_ptr<Value>` is `Option Value`; a null
pointer is `none`.  Evaluation returns through `Except`: `fuelOut` marks
an execution that did not finish within the recursion fuel (the C++
original recurses unboundedly through user-function calls), `nullDeref`
marks a dereference of a null `ValuePtr` (undefined behaviour in the
original; unreachable from parser-produced trees evaluated in clean
states). -/

/-- The data captured by the closure built in the ACT case: parameter
names and the body node. -/
abbrev FuncClos := List String × ASTNode

structure EvalState where
  /-- the `variables` member of `Runtime` (the global table); named
  `globals` here because `variables` is a reserved word in Lean -/
  globals : List (String × Option Value)
  functions : List (String × FuncClos)
  modules : List String
  scopes : List (List (String × Option Value))
  output : List String

inductive EErr where
  | fuelOut
  | nullDeref
  deriving DecidableEq, Repr

abbrev EM := Except EErr (Option Value × EvalState)

/-- `std::map` assignment `m[k] = v` observed through lookups: replace
the binding if the key is present, otherwise add it. -/
def assocSet {α : Type} (k : String) (v : α) : List (String × α) → List (String × α)
  | [] => [(k, v)]
  | (k', v') :: t => if k' = k then (k, v) :: t else (k', v') :: assocSet k v t

/-- Apply `f` to the last element (`scopes.back()`). -/
def updateLast {α : Type} (f : α → α) : List α → List α
  | [] => []
  | [x] => [f x]
  | x :: xs => x :: updateLast f xs

/-- `Runtime::pushScope`. -/
def pushScope (st : EvalState) : EvalState :=
  { st with scopes := st.scopes ++ [[]] }

/-- `Runtime::popScope` (a no-op on an empty stack, as in the original). -/
def popScope (st : EvalState) : EvalState :=
  { st with scopes := st.scopes.dropLast }

/-- `Runtime::getVariable`: innermost scope frame first, then globals,
else a fresh `Void`.  The returned pointer is the stored one, so a
stored null is returned as `none`. -/
def getVariable (st : EvalState) (name : String) : Option Value :=
  match st.scopes.reverse.findSome? (fun fr => fr.lookup name) with
  | some o => o
  | none =>
    match st.globals.lookup name with
    | some o => o
    | none => some .void

/-- `Runtime::setVariable`: write into the innermost active frame, or
into globals when no frame is active. -/
def setVariable (st : EvalState) (name : String) (v : Option Value) : EvalState :=
  if st.scopes.isEmpty then { st with globals := assocSet name v st.globals }
  else { st with scopes := updateLast (assocSet name v) st.scopes }

/-- The module names registered by the `Runtime` constructor. -/
def initModules : List String :=
  ["net", "file", "vm", "serve", "view", "play", "markdown",
   "web", "query", "database", "csv", "go", "channel", "run"]

/-- Modelled from the spec: capability modules are external collaborators
(spec §1, §6) whose internals are out of the core's scope; the contract
only requires `invoke` to return a Value synchronously.  No claim
exercises a module body, so the dispatch is modelled as returning a
Value with the core state untouched. -/
def moduleCall (_name _method : String) (_args : List (Option Value))
    (st : EvalState) : Value × EvalState :=
  (.void, st)

/-- `std::fmod` (truncated remainder) on the rational model. -/
def qfmod (l r : ℚ) : ℚ :=
  l - r * (qtrunc (l / r) : ℚ)

/-- `std::pow`, modelled for integer exponents only: the `power` branch of
the BINARY_OP case is unreachable from parsed programs (the operator
precedence table contains no `power`), and no claim exercises it. -/
def qpowModel (l r : ℚ) : ℚ :=
  if r.den = 1 then l ^ r.num else 0

/-- `left->type == ValueType::TEXT`. -/
def isTextV : Value → Bool
  | .text _ => true
  | _ => false

/-- The sequencing loop of the PROGRAM and BLOCK cases:
`for (child : children) result = evaluate(child);` with `result`
starting as a null `ValuePtr`. -/
def seqEval (g : ASTNode → EvalState → EM) :
    List ASTNode → Option Value → EvalState → EM
  | [], res, st => .ok (res, st)
  | c :: cs, _, st =>
    match g c st with
    | .error e => .error e
    | .ok (r, st') => seqEval g cs r st'

/-- The argument-collection loops of the CALL case. -/
def argsEval (g : ASTNode → EvalState → EM) :
    List ASTNode → EvalState → Except EErr (List (Option Value) × EvalState)
  | [], st => .ok ([], st)
  | c :: cs, st =>
    match g c st with
    | .error e => .error e
    | .ok (r, st') =>
      match argsEval g cs st' with
      | .error e => .error e
      | .ok (rs, st'') => .ok (r :: rs, st'')

/-- Positional parameter binding of a function call (`i` up to the
shorter of the two lists). -/
def bindParams (ps : List String) (args : List (Option Value)) (st : EvalState) :
    EvalState :=
  (ps.zip args).foldl (fun s pa => setVariable s pa.1 pa.2) st

/-- The closure body built in the ACT case: push a scope, bind the
parameters, evaluate the body, pop the scope. -/
def callFn (g : ASTNode → EvalState → EM) (params : List String) (body : ASTNode)
    (args : List (Option Value)) (st : EvalState) : EM :=
  match g body (bindParams params args (pushScope st)) with
  | .error e => .error e
  | .ok (r, st') => .ok (r, popScope st')

/-- Number of iterations of `for (double i = 0; i < it; i++)`: the
naturals strictly below `it`. -/
def iterCount (it : ℚ) : Nat :=
  (Int.ceil it).toNat

/-- The iteration loop of the LOOP case: the counter `i` starts at `0`
and increases by `1`, so it ranges over the naturals (exactly as the C++
`double i` does on any count small enough for `i++` to be exact); each
iteration pushes a scope, binds `step`, evaluates the body and pops.
The exit condition is `i < it`, as in the original; `rem`, initialised
by the caller to `iterCount it` (the exact number of iterations), only
drives the structural recursion and runs out strictly after the exit
test fails (`loopGo_rem_irrel`). -/
def loopGo (g : ASTNode → EvalState → EM) (body : ASTNode) (it : ℚ)
    (rem i : Nat) (res : Option Value) (st : EvalState) : EM :=
  if (i : ℚ) < it then
    match rem with
    | 0 => .error .fuelOut
    | rem' + 1 =>
      match g body (setVariable (pushScope st) "step" (some (.num i))) with
      | .error e => .error e
      | .ok (r, st') => loopGo g body it rem' (i + 1) r (popScope st')
  else .ok (res, st)

/-- The natural `i` is an iteration of the loop on count `it` exactly
when `i < iterCount it`. -/
theorem lt_iterCount_iff (it : ℚ) (i : Nat) : i < iterCount it ↔ (i : ℚ) < it := by
  rw [iterCount, Int.lt_toNat, Int.lt_ceil]
  push_cast
  rfl

/-- Any `rem` large enough to cover the remaining iterations gives the
same run: the structural counter never interferes with the loop's own
exit test. -/
theorem loopGo_rem_irrel (g : ASTNode → EvalState → EM) (body : ASTNode) (it : ℚ) :
    ∀ rem₁ rem₂ i res st, iterCount it ≤ i + rem₁ → iterCount it ≤ i + rem₂ →
      loopGo g body it rem₁ i res st = loopGo g body it rem₂ i res st := by
  intro rem₁
  induction rem₁ with
  | zero =>
    intro rem₂ i res st h1 h2
    have hq : ¬ ((i : ℚ) < it) := by
      rw [← lt_iterCount_iff]
      omega
    rw [loopGo.eq_def, loopGo.eq_def, if_neg hq, if_neg hq]
  | succ r ih =>
    intro rem₂ i res st h1 h2
    by_cases hq : (i : ℚ) < it
    · have hi : i < iterCount it := (lt_iterCount_iff it i).mpr hq
      cases rem₂ with
      | zero => omega
      | succ r₂ =>
        rw [loopGo.eq_def, loopGo.eq_def, if_pos hq, if_pos hq]
        cases hgb : g body (setVariable (pushScope st) "step" (some (.num i))) with
        | error e => simp [hgb]
        | ok p => simp only [hgb]; exact ih r₂ (i + 1) p.1 (popScope p.2) (by omega) (by omega)
    · rw [loopGo.eq_def, loopGo.eq_def, if_neg hq, if_neg hq]

/-- FORM case of `Runtime::evaluate`: the name is read from
`children[1]` and the value from `children[2]` (whether or not a type
token was parsed). -/
def evalFormN (g : ASTNode → EvalState → EM) (n : ASTNode) (st : EvalState) : EM :=
  match n.children with
  | _ :: nameNode :: rest =>
    match rest with
    | v :: _ =>
      match g v st with
      | .error e => .error e
      | .ok (val, st') => .ok (val, setVariable st' nameNode.value val)
    | [] => .ok (some .void, setVariable st nameNode.value (some .void))
  | _ => .ok (some .void, st)

/-- Parameter/body split of the ACT case: children after the first up to
the first BLOCK are parameters; the body index defaults to the last
child when no BLOCK is present. -/
def actSplit : List ASTNode → List String × Option ASTNode
  | [] => ([], none)
  | x :: xs =>
    if x.type = .block then ([], some x)
    else
      let r := actSplit xs
      (x.value :: r.1, r.2)

/-- ACT case of `Runtime::evaluate`: build the closure, register it in
the function table under `children[0]->value`, and return it as a
value. -/
def evalActN (n : ASTNode) (st : EvalState) : EM :=
  match h : n.children with
  | c0 :: rest =>
    let sp := actSplit rest
    let body :=
      match sp.2 with
      | some b => b
      | none => (n.children).getLast (by rw [h]; simp)
    .ok (some (.func sp.1 body),
      { st with functions := assocSet c0.value (sp.1, body) st.functions })
  | [] => .ok (some .void, st)

/-- CALL case of `Runtime::evaluate`: module dispatch when there is more
than one child and the callee names a registered module; else function
table dispatch; else fall through to `Void`. -/
def evalCallN (g : ASTNode → EvalState → EM) (n : ASTNode) (st : EvalState) : EM :=
  match n.children with
  | c0 :: rest =>
    let name := c0.value
    let funcPath : EM :=
      match st.functions.lookup name with
      | some pb =>
        match argsEval g rest st with
        | .error e => .error e
        | .ok (args, st') => callFn g pb.1 pb.2 args st'
      | none => .ok (some .void, st)
    match rest with
    | m :: argNodes =>
      if st.modules.contains name then
        match argsEval g argNodes st with
        | .error e => .error e
        | .ok (args, st') =>
          let r := moduleCall name m.value args st'
          .ok (some r.1, r.2)
      else funcPath
    | [] => funcPath
  | [] => .ok (some .void, st)

/-- IF case of `Runtime::evaluate`. -/
def evalIfN (g : ASTNode → EvalState → EM) (n : ASTNode) (st : EvalState) : EM :=
  match n.children with
  | cond :: thenB :: rest =>
    match g cond st with
    | .error e => .error e
    | .ok (cv, st1) =>
      match cv with
      | none => .error .nullDeref
      | some v =>
        if v.toBool then g thenB st1
        else
          match rest with
          | e :: _ => g e st1
          | [] => .ok (some .void, st1)
  | _ => .ok (some .void, st)

/-- LOOP case of `Runtime::evaluate`: the count expression is evaluated
once, then the body runs while the counter is below `count->toNumber()`,
returning the last iteration's result (a null `ValuePtr` when no
iteration ran). -/
def evalLoopN (g : ASTNode → EvalState → EM) (n : ASTNode) (st : EvalState) : EM :=
  match n.children with
  | cnt :: body :: _ =>
    match g cnt st with
    | .error e => .error e
    | .ok (cv, st1) =>
      match cv with
      | none => .error .nullDeref
      | some v => loopGo g body v.toNumber (iterCount v.toNumber) 0 none st1
  | _ => .ok (some .void, st)

/-- GIVE case of `Runtime::evaluate`. -/
def evalGiveN (g : ASTNode → EvalState → EM) (n : ASTNode) (st : EvalState) : EM :=
  match n.children with
  | c0 :: _ => g c0 st
  | [] => .ok (some .void, st)

/-- SAY case of `Runtime::evaluate`: evaluate the child, read an optional
repeat count from a LITERAL second child, print `repeat` times, store
under the label when one was parsed, and return the value. -/
def evalSayN (g : ASTNode → EvalState → EM) (n : ASTNode) (st : EvalState) : EM :=
  match n.children with
  | c0 :: rest =>
    match g c0 st with
    | .error e => .error e
    | .ok (v, st1) =>
      let rcRes : Except EErr (Int × EvalState) :=
        match rest with
        | r1 :: _ =>
          if r1.type = .literal then
            match g r1 st1 with
            | .error e => .error e
            | .ok (rv, st2) =>
              match rv with
              | none => .error .nullDeref
              | some rvv => .ok (qtrunc rvv.toNumber, st2)
          else .ok (1, st1)
        | [] => .ok (1, st1)
      match rcRes with
      | .error e => .error e
      | .ok (rc, st2) =>
        if 0 < rc then
          match v with
          | none => .error .nullDeref
          | some vv =>
            let st3 := { st2 with output := st2.output ++ List.replicate rc.toNat vv.toString }
            .ok (v, if n.value ≠ "" then setVariable st3 n.value v else st3)
        else
          .ok (v, if n.value ≠ "" then setVariable st2 n.value v else st2)
  | [] => .ok (some .void, st)

/-- PUT case of `Runtime::evaluate`. -/
def evalPutN (g : ASTNode → EvalState → EM) (n : ASTNode) (st : EvalState) : EM :=
  match n.children with
  | v0 :: t :: _ =>
    match g v0 st with
    | .error e => .error e
    | .ok (v, st1) =>
      if t.type = .identifier then .ok (v, setVariable st1 t.value v)
      else .ok (v, st1)
  | [v0] => g v0 st
  | [] => .ok (some .void, st)

/-- Operator dispatch of the BINARY_OP case, after both operands have
been evaluated and dereferenced (`lnum`/`rnum` are computed before the
operator is inspected in the original). -/
def binOpResult (op : String) (lv rv : Value) : Value :=
  let ln := lv.toNumber
  let rn := rv.toNumber
  if op = "plus" ∨ op = "add" ∨ op = "+" then .num (ln + rn)
  else if op = "minus" ∨ op = "subtract" ∨ op = "-" then .num (ln - rn)
  else if op = "times" ∨ op = "multiply" ∨ op = "*" then .num (ln * rn)
  else if op = "div" ∨ op = "divide" ∨ op = "/" then
    if rn = 0 then .num 0 else .num (ln / rn)
  else if op = "mod" ∨ op = "%" then
    if rn = 0 then .num 0 else .num (qfmod ln rn)
  else if op = "power" ∨ op = "^" ∨ op = "**" then .num (qpowModel ln rn)
  else if op = "over" ∨ op = "greater" ∨ op = ">" then .bool (decide (rn < ln))
  else if op = "under" ∨ op = "less" ∨ op = "<" then .bool (decide (ln < rn))
  else if op = ">=" then .bool (decide (rn ≤ ln))
  else if op = "<=" then .bool (decide (ln ≤ rn))
  else if op = "same" ∨ op = "equals" ∨ op = "is" ∨ op = "are" ∨ op = "==" ∨ op = "=" then
    if isTextV lv ∧ isTextV rv then .bool (decide (lv.toString = rv.toString))
    else .bool (decide (|ln - rn| < 1 / 10000))
  else if op = "not" ∨ op = "notequal" ∨ op = "!=" then
    if isTextV lv ∧ isTextV rv then .bool (decide (lv.toString ≠ rv.toString))
    else .bool (decide (1 / 10000 ≤ |ln - rn|))
  else if op = "and" ∨ op = "andalso" ∨ op = "&&" then .bool (lv.toBool && rv.toBool)
  else if op = "or" ∨ op = "orelse" ∨ op = "||" then .bool (lv.toBool || rv.toBool)
  else .void

/-- BINARY_OP case of `Runtime::evaluate`. -/
def evalBinN (g : ASTNode → EvalState → EM) (n : ASTNode) (st : EvalState) : EM :=
  match n.children with
  | l0 :: r0 :: _ =>
    match g l0 st with
    | .error e => .error e
    | .ok (lp, st1) =>
      match g r0 st1 with
      | .error e => .error e
      | .ok (rp, st2) =>
        match lp, rp with
        | some lv, some rv => .ok (some (binOpResult n.value lv rv), st2)
        | _, _ => .error .nullDeref
  | _ => .ok (some .void, st)

/-- LITERAL case of `Runtime::evaluate` (reading `node->value`, which the
parser never assigns). -/
def evalLitN (n : ASTNode) (st : EvalState) : EM :=
  if n.token.type = .number then
    match stodOpt n.value with
    | some q => .ok (some (.num q), st)
    | none => .ok (some (.num (wordToNumber n.value)), st)
  else if n.token.type = .string then .ok (some (.text n.value), st)
  else if n.value = "true" then .ok (some (.bool true), st)
  else if n.value = "false" then .ok (some (.bool false), st)
  else
    let num := wordToNumber n.value
    if num ≠ 0 ∨ n.value = "zero" then .ok (some (.num num), st)
    else .ok (getVariable st n.value, st)

/-- BLOCK case of `Runtime::evaluate`. -/
def evalBlockN (g : ASTNode → EvalState → EM) (n : ASTNode) (st : EvalState) : EM :=
  match seqEval g n.children none (pushScope st) with
  | .error e => .error e
  | .ok (r, st') => .ok (r, popScope st')

/-- `Runtime::evaluate`, fuelled on recursion depth (the original
recurses without bound through function calls).  Node kinds without a
case (UNARY_OP, LIST_LIT, MAP_LIT) fall through to `Void`. -/
def eval : Nat → ASTNode → EvalState → EM
  | 0, _, _ => .error .fuelOut
  | f + 1, n, st =>
    match n.type with
    | .program => seqEval (fun nd s => eval f nd s) n.children none st
    | .form => evalFormN (fun nd s => eval f nd s) n st
    | .act => evalActN n st
    | .call => evalCallN (fun nd s => eval f nd s) n st
    | .ifStmt => evalIfN (fun nd s => eval f nd s) n st
    | .loop => evalLoopN (fun nd s => eval f nd s) n st
    | .give => evalGiveN (fun nd s => eval f nd s) n st
    | .say => evalSayN (fun nd s => eval f nd s) n st
    | .put => evalPutN (fun nd s => eval f nd s) n st
    | .binaryOp => evalBinN (fun nd s => eval f nd s) n st
    | .identifier => .ok (getVariable st n.value, st)
    | .literal => evalLitN n st
    | .block => evalBlockN (fun nd s => eval f nd s) n st
    | _ => .ok (some .void, st)

/-- The state of a freshly constructed `Runtime` (the constructor only
registers the built-in modules). -/
def initState : EvalState :=
  ⟨[], [], initModules, [], []⟩

/-- `Runtime::execute`: tokenize, parse, evaluate.  The fuel bounds the
parser loops and the evaluation recursion depth; `.error .fuelOut`
means the run did not finish within the fuel. -/
def executeFuel (fuel : Nat) (source : String) : EM :=
  match parseProg fuel (tokenize source) with
  | none => .error .fuelOut
  | some ast => eval fuel ast initState

/-! ## Scope-depth preservation (infrastructure for the LIFO claim) -/

/-- A sub-evaluator that returns with the scope stack at the depth it had
on entry whenever it returns at all. -/
def Preserve (g : ASTNode → EvalState → EM) : Prop :=
  ∀ nd s r s', g nd s = .ok (r, s') → s'.scopes.length = s.scopes.length

theorem updateLast_length {α : Type} (f : α → α) :
    ∀ l : List α, (updateLast f l).length = l.length := by
  intro l
  induction l with
  | nil => rfl
  | cons x xs ih =>
    cases xs with
    | nil => rfl
    | cons y ys =>
      simp only [updateLast, List.length_cons] at ih ⊢
      omega

theorem setVariable_slen (st : EvalState) (k : String) (v : Option Value) :
    (setVariable st k v).scopes.length = st.scopes.length := by
  unfold setVariable
  split
  · rfl
  · simp [updateLast_length]

theorem pushScope_slen (st : EvalState) :
    (pushScope st).scopes.length = st.scopes.length + 1 := by
  simp [pushScope]

theorem popScope_slen (st : EvalState) :
    (popScope st).scopes.length = st.scopes.length - 1 := by
  simp [popScope]

theorem bindParams_slen (ps : List String) (args : List (Option Value)) (st : EvalState) :
    (bindParams ps args st).scopes.length = st.scopes.length := by
  unfold bindParams
  generalize ps.zip args = l
  induction l generalizing st with
  | nil => rfl
  | cons p t ih =>
    simp only [List.foldl_cons]
    rw [ih]
    exact setVariable_slen ..

theorem seqEval_preserve {g : ASTNode → EvalState → EM} (hg : Preserve g) :
    ∀ (cs : List ASTNode) (res : Option Value) (st : EvalState) (r : Option Value)
      (st' : EvalState), seqEval g cs res st = .ok (r, st') →
      st'.scopes.length = st.scopes.length := by
  intro cs
  induction cs with
  | nil =>
    intro res st r st' h
    simp only [seqEval, Except.ok.injEq, Prod.mk.injEq] at h
    rw [← h.2]
  | cons c cs ih =>
    intro res st r st' h
    simp only [seqEval] at h
    cases hc : g c st with
    | error e => simp [hc] at h
    | ok p =>
      simp only [hc] at h
      rw [ih p.1 p.2 r st' h, hg c st p.1 p.2 (by rw [hc])]

theorem argsEval_preserve {g : ASTNode → EvalState → EM} (hg : Preserve g) :
    ∀ (cs : List ASTNode) (st : EvalState) (rs : List (Option Value)) (st' : EvalState),
      argsEval g cs st = .ok (rs, st') → st'.scopes.length = st.scopes.length := by
  intro cs
  induction cs with
  | nil =>
    intro st rs st' h
    simp only [argsEval, Except.ok.injEq, Prod.mk.injEq] at h
    rw [← h.2]
  | cons c cs ih =>
    intro st rs st' h
    simp only [argsEval] at h
    cases hc : g c st with
    | error e => simp [hc] at h
    | ok p =>
      simp only [hc] at h
      cases ha : argsEval g cs p.2 with
      | error e => simp [ha] at h
      | ok pa =>
        simp only [ha, Except.ok.injEq, Prod.mk.injEq] at h
        rw [← h.2, ih p.2 pa.1 pa.2 (by rw [ha]), hg c st p.1 p.2 (by rw [hc])]

theorem callFn_preserve {g : ASTNode → EvalState → EM} (hg : Preserve g)
    (ps : List String) (b : ASTNode) (args : List (Option Value)) (st : EvalState)
    (r : Option Value) (st' : EvalState) (h : callFn g ps b args st = .ok (r, st')) :
    st'.scopes.length = st.scopes.length := by
  unfold callFn at h
  cases hb : g b (bindParams ps args (pushScope st)) with
  | error e => simp [hb] at h
  | ok p =>
    simp only [hb, Except.ok.injEq, Prod.mk.injEq] at h
    have h1 := hg _ _ p.1 p.2 (by rw [hb])
    rw [bindParams_slen, pushScope_slen] at h1
    rw [← h.2, popScope_slen]
    omega

theorem loopGo_preserve {g : ASTNode → EvalState → EM} (hg : Preserve g)
    (body : ASTNode) (it : ℚ) :
    ∀ (rem i : Nat) (res : Option Value) (st : EvalState) (r : Option Value)
      (st' : EvalState), loopGo g body it rem i res st = .ok (r, st') →
      st'.scopes.length = st.scopes.length := by
  intro rem
  induction rem with
  | zero =>
    intro i res st r st' h
    rw [loopGo.eq_def] at h
    split at h
    · simp at h
    · simp only [Except.ok.injEq, Prod.mk.injEq] at h
      rw [← h.2]
  | succ rem ih =>
    intro i res st r st' h
    rw [loopGo.eq_def] at h
    split at h
    · cases hb : g body (setVariable (pushScope st) "step" (some (.num i))) with
      | error e => simp [hb] at h
      | ok p =>
        simp only [hb] at h
        have h1 := hg _ _ p.1 p.2 (by rw [hb])
        rw [setVariable_slen, pushScope_slen] at h1
        have h2 := ih (i + 1) p.1 (popScope p.2) r st' h
        rw [popScope_slen] at h2
        omega
    · simp only [Except.ok.injEq, Prod.mk.injEq] at h
      rw [← h.2]

theorem evalFormN_preserve {g : ASTNode → EvalState → EM} (hg : Preserve g)
    (n : ASTNode) (st : EvalState) (r : Option Value) (st' : EvalState)
    (h : evalFormN g n st = .ok (r, st')) : st'.scopes.length = st.scopes.length := by
  unfold evalFormN at h
  cases hcs : n.children with
  | nil => simp only [hcs, Except.ok.injEq, Prod.mk.injEq] at h; rw [← h.2]
  | cons c0 rest0 =>
    cases rest0 with
    | nil => simp only [hcs, Except.ok.injEq, Prod.mk.injEq] at h; rw [← h.2]
    | cons nameNode rest =>
      cases rest with
      | nil =>
        simp only [hcs, Except.ok.injEq, Prod.mk.injEq] at h
        rw [← h.2, setVariable_slen]
      | cons v vs =>
        simp only [hcs] at h
        cases hv : g v st with
        | error e => simp [hv] at h
        | ok p =>
          simp only [hv, Except.ok.injEq, Prod.mk.injEq] at h
          rw [← h.2, setVariable_slen, hg v st p.1 p.2 (by rw [hv])]

theorem evalActN_preserve (n : ASTNode) (st : EvalState) (r : Option Value)
    (st' : EvalState) (h : evalActN n st = .ok (r, st')) :
    st'.scopes.length = st.scopes.length := by
  unfold evalActN at h
  split at h <;>
    (simp only [Except.ok.injEq, Prod.mk.injEq] at h; rw [← h.2])

theorem evalCallN_preserve {g : ASTNode → EvalState → EM} (hg : Preserve g)
    (n : ASTNode) (st : EvalState) (r : Option Value) (st' : EvalState)
    (h : evalCallN g n st = .ok (r, st')) : st'.scopes.length = st.scopes.length := by
  unfold evalCallN at h
  cases hcs : n.children with
  | nil => simp only [hcs, Except.ok.injEq, Prod.mk.injEq] at h; rw [← h.2]
  | cons c0 rest =>
    simp only [hcs] at h
    have funcPath : ∀ (h' : (match st.functions.lookup c0.value with
        | some pb =>
          match argsEval g rest st with
          | .error e => .error e
          | .ok (args, st'') => callFn g pb.1 pb.2 args st''
        | none => .ok (some .void, st) : EM) = .ok (r, st')),
        st'.scopes.length = st.scopes.length := by
      intro h'
      cases hl : st.functions.lookup c0.value with
      | none => simp only [hl, Except.ok.injEq, Prod.mk.injEq] at h'; rw [← h'.2]
      | some pb =>
        simp only [hl] at h'
        cases ha : argsEval g rest st with
        | error e => simp [ha] at h'
        | ok pa =>
          simp only [ha] at h'
          rw [callFn_preserve hg pb.1 pb.2 pa.1 pa.2 r st' h',
            argsEval_preserve hg rest st pa.1 pa.2 (by rw [ha])]
    cases rest with
    | nil => exact funcPath h
    | cons m argNodes =>
      by_cases hm : st.modules.contains c0.value
      · simp only [hm, if_true] at h
        cases ha : argsEval g argNodes st with
        | error e => simp [ha] at h
        | ok pa =>
          simp only [ha, moduleCall, Except.ok.injEq, Prod.mk.injEq] at h
          rw [← h.2, argsEval_preserve hg argNodes st pa.1 pa.2 (by rw [ha])]
      · simp only [hm, if_false] at h
        exact funcPath h

theorem evalIfN_preserve {g : ASTNode → EvalState → EM} (hg : Preserve g)
    (n : ASTNode) (st : EvalState) (r : Option Value) (st' : EvalState)
    (h : evalIfN g n st = .ok (r, st')) : st'.scopes.length = st.scopes.length := by
  unfold evalIfN at h
  cases hcs : n.children with
  | nil => simp only [hcs, Except.ok.injEq, Prod.mk.injEq] at h; rw [← h.2]
  | cons cond rest0 =>
    cases rest0 with
    | nil => simp only [hcs, Except.ok.injEq, Prod.mk.injEq] at h; rw [← h.2]
    | cons thenB rest =>
      simp only [hcs] at h
      cases hc : g cond st with
      | error e => simp [hc] at h
      | ok p =>
        simp only [hc] at h
        obtain ⟨cv, st1⟩ := p
        have hlen1 : st1.scopes.length = st.scopes.length := hg cond st cv st1 (by rw [hc])
        cases cv with
        | none => simp at h
        | some v =>
          simp only [] at h
          by_cases hb : v.toBool
          · rw [if_pos hb] at h
            rw [hg thenB st1 r st' h, hlen1]
          · rw [if_neg hb] at h
            cases rest with
            | nil =>
              simp only [Except.ok.injEq, Prod.mk.injEq] at h
              rw [← h.2, hlen1]
            | cons e es => rw [hg e st1 r st' h, hlen1]

theorem evalLoopN_preserve {g : ASTNode → EvalState → EM} (hg : Preserve g)
    (n : ASTNode) (st : EvalState) (r : Option Value) (st' : EvalState)
    (h : evalLoopN g n st = .ok (r, st')) : st'.scopes.length = st.scopes.length := by
  unfold evalLoopN at h
  cases hcs : n.children with
  | nil => simp only [hcs, Except.ok.injEq, Prod.mk.injEq] at h; rw [← h.2]
  | cons cnt rest0 =>
    cases rest0 with
    | nil => simp only [hcs, Except.ok.injEq, Prod.mk.injEq] at h; rw [← h.2]
    | cons body rest =>
      simp only [hcs] at h
      cases hc : g cnt st with
      | error e => simp [hc] at h
      | ok p =>
        simp only [hc] at h
        obtain ⟨cv, st1⟩ := p
        have hlen1 : st1.scopes.length = st.scopes.length := hg cnt st cv st1 (by rw [hc])
        cases cv with
        | none => simp at h
        | some v =>
          simp only [] at h
          rw [loopGo_preserve hg body v.toNumber _ 0 none st1 r st' h, hlen1]

theorem evalGiveN_preserve {g : ASTNode → EvalState → EM} (hg : Preserve g)
    (n : ASTNode) (st : EvalState) (r : Option Value) (st' : EvalState)
    (h : evalGiveN g n st = .ok (r, st')) : st'.scopes.length = st.scopes.length := by
  unfold evalGiveN at h
  cases hcs : n.children with
  | nil => simp only [hcs, Except.ok.injEq, Prod.mk.injEq] at h; rw [← h.2]
  | cons c0 rest => exact hg c0 st r st' (by simpa only [hcs] using h)

theorem evalSayN_preserve {g : ASTNode → EvalState → EM} (hg : Preserve g)
    (n : ASTNode) (st : EvalState) (r : Option Value) (st' : EvalState)
    (h : evalSayN g n st = .ok (r, st')) : st'.scopes.length = st.scopes.length := by
  unfold evalSayN at h
  cases hcs : n.children with
  | nil => simp only [hcs, Except.ok.injEq, Prod.mk.injEq] at h; rw [← h.2]
  | cons c0 rest =>
    simp only [hcs] at h
    cases hc : g c0 st with
    | error e => simp [hc] at h
    | ok p =>
      simp only [hc] at h
      obtain ⟨v, st1⟩ := p
      have hlen1 : st1.scopes.length = st.scopes.length := hg c0 st v st1 (by rw [hc])
      have hrc : ∀ (rc : Int) (st2 : EvalState),
          st2.scopes.length = st.scopes.length →
          ((if 0 < rc then
              match v with
              | none => (.error .nullDeref : EM)
              | some vv =>
                .ok (v, if n.value ≠ "" then
                    setVariable { st2 with output := st2.output ++ List.replicate rc.toNat vv.toString } n.value v
                  else { st2 with output := st2.output ++ List.replicate rc.toNat vv.toString })
            else .ok (v, if n.value ≠ "" then setVariable st2 n.value v else st2)) = .ok (r, st')) →
          st'.scopes.length = st.scopes.length := by
        intro rc st2 hlen2 h'
        by_cases hpos : 0 < rc
        · rw [if_pos hpos] at h'
          cases v with
          | none => simp at h'
          | some vv =>
            simp only [Except.ok.injEq, Prod.mk.injEq] at h'
            rw [← h'.2]
            by_cases hnv : n.value ≠ ""
            · rw [if_pos hnv, setVariable_slen]
              exact hlen2
            · rw [if_neg hnv]
              exact hlen2
        · rw [if_neg hpos] at h'
          simp only [Except.ok.injEq, Prod.mk.injEq] at h'
          rw [← h'.2]
          by_cases hnv : n.value ≠ ""
          · rw [if_pos hnv, setVariable_slen]; exact hlen2
          · rw [if_neg hnv]; exact hlen2
      cases rest with
      | nil => exact hrc 1 st1 hlen1 h
      | cons r1 rs =>
        by_cases hlit : r1.type = .literal
        · simp only [hlit, if_pos rfl] at h
          cases hr1 : g r1 st1 with
          | error e => simp [hr1] at h
          | ok pr =>
            simp only [hr1] at h
            obtain ⟨rv, st2⟩ := pr
            cases rv with
            | none => simp at h
            | some rvv =>
              simp only [] at h
              exact hrc (qtrunc rvv.toNumber) st2
                (by rw [hg r1 st1 (some rvv) st2 (by rw [hr1]), hlen1]) h
        · simp only [if_neg hlit] at h
          exact hrc 1 st1 hlen1 h

theorem evalPutN_preserve {g : ASTNode → EvalState → EM} (hg : Preserve g)
    (n : ASTNode) (st : EvalState) (r : Option Value) (st' : EvalState)
    (h : evalPutN g n st = .ok (r, st')) : st'.scopes.length = st.scopes.length := by
  unfold evalPutN at h
  cases hcs : n.children with
  | nil => simp only [hcs, Except.ok.injEq, Prod.mk.injEq] at h; rw [← h.2]
  | cons v0 rest0 =>
    cases rest0 with
    | nil => exact hg v0 st r st' (by simpa only [hcs] using h)
    | cons t rest =>
      simp only [hcs] at h
      cases hv : g v0 st with
      | error e => simp [hv] at h
      | ok p =>
        simp only [hv] at h
        have hlen1 := hg v0 st p.1 p.2 (by rw [hv])
        by_cases ht : t.type = .identifier
        · rw [if_pos ht] at h
          simp only [Except.ok.injEq, Prod.mk.injEq] at h
          rw [← h.2, setVariable_slen, hlen1]
        · rw [if_neg ht] at h
          simp only [Except.ok.injEq, Prod.mk.injEq] at h
          rw [← h.2, hlen1]

theorem evalBinN_preserve {g : ASTNode → EvalState → EM} (hg : Preserve g)
    (n : ASTNode) (st : EvalState) (r : Option Value) (st' : EvalState)
    (h : evalBinN g n st = .ok (r, st')) : st'.scopes.length = st.scopes.length := by
  unfold evalBinN at h
  cases hcs : n.children with
  | nil => simp only [hcs, Except.ok.injEq, Prod.mk.injEq] at h; rw [← h.2]
  | cons l0 rest0 =>
    cases rest0 with
    | nil => simp only [hcs, Except.ok.injEq, Prod.mk.injEq] at h; rw [← h.2]
    | cons r0 rest =>
      simp only [hcs] at h
      cases hl : g l0 st with
      | error e => simp [hl] at h
      | ok pl =>
        simp only [hl] at h
        cases hr : g r0 pl.2 with
        | error e => simp [hr] at h
        | ok pr =>
          simp only [hr] at h
          cases hlv : pl.1 with
          | none => obtain ⟨rv, st2⟩ := pr; cases rv <;> simp [hlv] at h
          | some lv =>
            cases hrv : pr.1 with
            | none => simp [hlv, hrv] at h
            | some rv =>
              simp only [hlv, hrv, Except.ok.injEq, Prod.mk.injEq] at h
              rw [← h.2, hg r0 pl.2 pr.1 pr.2 (by rw [hr]),
                hg l0 st pl.1 pl.2 (by rw [hl])]

theorem evalLitN_preserve (n : ASTNode) (st : EvalState) (r : Option Value)
    (st' : EvalState) (h : evalLitN n st = .ok (r, st')) :
    st'.scopes.length = st.scopes.length := by
  unfold evalLitN at h
  split at h
  · split at h <;> (simp only [Except.ok.injEq, Prod.mk.injEq] at h; rw [← h.2])
  · split at h
    · simp only [Except.ok.injEq, Prod.mk.injEq] at h; rw [← h.2]
    · split at h
      · simp only [Except.ok.injEq, Prod.mk.injEq] at h; rw [← h.2]
      · split at h
        · simp only [Except.ok.injEq, Prod.mk.injEq] at h; rw [← h.2]
        · by_cases hz : wordToNumber n.value ≠ 0 ∨ n.value = "zero"
          · simp only [if_pos hz, Except.ok.injEq, Prod.mk.injEq] at h; rw [← h.2]
          · simp only [if_neg hz, Except.ok.injEq, Prod.mk.injEq] at h; rw [← h.2]

theorem evalBlockN_preserve {g : ASTNode → EvalState → EM} (hg : Preserve g)
    (n : ASTNode) (st : EvalState) (r : Option Value) (st' : EvalState)
    (h : evalBlockN g n st = .ok (r, st')) : st'.scopes.length = st.scopes.length := by
  unfold evalBlockN at h
  cases hs : seqEval g n.children none (pushScope st) with
  | error e => simp [hs] at h
  | ok p =>
    simp only [hs, Except.ok.injEq, Prod.mk.injEq] at h
    have h1 := seqEval_preserve hg n.children none (pushScope st) p.1 p.2 (by rw [hs])
    rw [pushScope_slen] at h1
    rw [← h.2, popScope_slen]
    omega

/-- C9: scope frames are handled in strict LIFO order — BLOCK evaluation,
each LOOP iteration and each user-function call push one frame and pop it
again — so every run of `Runtime::evaluate` that returns leaves the scope
stack at exactly the depth it had on entry (runs that do not return in
the original — modelled as fuel exhaustion — and null-pointer
dereferences are the only exceptions, and they do not return at all). -/
theorem az_C9_scopeDepth :
    ∀ (fuel : Nat) (n : ASTNode) (st : EvalState) (r : Option Value) (st' : EvalState),
      eval fuel n st = .ok (r, st') → st'.scopes.length = st.scopes.length := by
  intro fuel
  induction fuel with
  | zero =>
    intro n st r st' h
    exact absurd h (by simp [eval])
  | succ f ih =>
    intro n st r st' h
    have hg : Preserve (fun nd s => eval f nd s) := fun nd s r0 s0 hh => ih nd s r0 s0 hh
    obtain ⟨ty, v, cs, tk⟩ := n
    cases ty with
    | program => exact seqEval_preserve hg cs none st r st' h
    | form => exact evalFormN_preserve hg _ st r st' h
    | act => exact evalActN_preserve _ st r st' h
    | call => exact evalCallN_preserve hg _ st r st' h
    | ifStmt => exact evalIfN_preserve hg _ st r st' h
    | loop => exact evalLoopN_preserve hg _ st r st' h
    | give => exact evalGiveN_preserve hg _ st r st' h
    | say => exact evalSayN_preserve hg _ st r st' h
    | put => exact evalPutN_preserve hg _ st r st' h
    | binaryOp => exact evalBinN_preserve hg _ st r st' h
    | identifier =>
      have h' : (Except.ok (getVariable st v, st) : EM) = .ok (r, st') := h
      simp only [Except.ok.injEq, Prod.mk.injEq] at h'
      rw [← h'.2]
    | literal => exact evalLitN_preserve _ st r st' h
    | block => exact evalBlockN_preserve hg _ st r st' h
    | unaryOp =>
      have h' : (Except.ok (some Value.void, st) : EM) = .ok (r, st') := h
      simp only [Except.ok.injEq, Prod.mk.injEq] at h'
      rw [← h'.2]
    | listLit =>
      have h' : (Except.ok (some Value.void, st) : EM) = .ok (r, st') := h
      simp only [Except.ok.injEq, Prod.mk.injEq] at h'
      rw [← h'.2]
    | mapLit =>
      have h' : (Except.ok (some Value.void, st) : EM) = .ok (r, st') := h
      simp only [Except.ok.injEq, Prod.mk.injEq] at h'
      rw [← h'.2]

/-! ## Concrete nodes and states used by the claims -/

/-- A placeholder token for hand-built nodes (the evaluator only inspects
`token.type` on LITERAL nodes). -/
def tkDflt : Token :=
  Token.mk .eofTok "" 0 0

/-- `say step` with the `value` fields populated (the evaluator reads
names from `ASTNode::value`). -/
def c3Step : ASTNode :=
  ASTNode.mk .say "" [ASTNode.mk .identifier "step" [] tkDflt] tkDflt

/-- `loop c do say step end` with the count read from variable `c`. -/
def c3Loop : ASTNode :=
  ASTNode.mk .loop "" [ASTNode.mk .identifier "c" [] tkDflt, c3Step] tkDflt

/-- A fresh runtime state whose global `c` holds `Number q`. -/
def c3St (q : ℚ) : EvalState :=
  ⟨[("c", some (.num q))], [], initModules, [], []⟩

/-- `loop 2.5 do say step end` with a literal count of `2.5`. -/
def c3CexLoop : ASTNode :=
  ASTNode.mk .loop "" [ASTNode.mk .literal "2.5" [] (Token.mk .number "2.5" 0 0), c3Step] tkDflt

/-- `put y to x`: assign the value of `y` to the name `x`. -/
def c4Put : ASTNode :=
  ASTNode.mk .put "" [ASTNode.mk .identifier "y" [] tkDflt, ASTNode.mk .identifier "x" [] tkDflt] tkDflt

/-- Globals `x ↦ 5`, `y ↦ 7`, one (empty) active scope frame. -/
def c4CexSt : EvalState :=
  ⟨[("x", some (.num 5)), ("y", some (.num 7))], [], initModules, [[]], []⟩

/-- Globals `x ↦ q`, `y ↦ r`, one (empty) active scope frame. -/
def c4St1 (q r : ℚ) : EvalState :=
  ⟨[("x", some (.num q)), ("y", some (.num r))], [], initModules, [[]], []⟩

/-- Globals `x ↦ q`, `y ↦ r`, no active scope frame (top level). -/
def c4St0 (q r : ℚ) : EvalState :=
  ⟨[("x", some (.num q)), ("y", some (.num r))], [], initModules, [], []⟩

/-- `loop 1 do put y to x end`. -/
def c4Loop : ASTNode :=
  ASTNode.mk .loop "" [ASTNode.mk .literal "1" [] (Token.mk .number "1" 0 0), c4Put] tkDflt

/-- `say "hi"` as a hand-built node with the literal's `value` set. -/
def sayHiNode : ASTNode :=
  ASTNode.mk .say "" [ASTNode.mk .literal "hi" [] (Token.mk .string "hi" 0 0)] tkDflt

/-- The token stream of the source `send`. -/
def sendToks : List Token :=
  [Token.mk .keyword "send" 1 5, Token.mk .eofTok "" 1 5]

/-! ## Claims -/

set_option maxRecDepth 8000 in
/-- C1: the spec says executing `say "Hello"` prints one line `Hello` and
returns `Text("Hello")`.  The code actually prints one empty line and
returns `Text("")`: the parser never copies a token's lexeme into
`ASTNode::value` (only `parseBinaryOp` and the say-label assign it), and
the SAY/LITERAL evaluation reads `node->value`, which is `""`.  This
theorem evaluates the code at the failing input: the run returns
`Text("")` with output `[""]`. -/
theorem az_C1_sayHello :
    executeFuel 20 "say \"Hello\"" = .ok (some (.text ""), ⟨[], [], initModules, [], [""]⟩)
    ∧ (Value.text "" : Value) ≠ .text "Hello" := by
  constructor
  · have ht : tokenize "say \"Hello\"" =
        [Token.mk .keyword "say" 1 4, Token.mk .string "Hello" 1 12, Token.mk .eofTok "" 1 12] := by
      simp [tokenize, tokGo, skipWs, skipComment, readIdentifier, identGo, digitsEnd, charAt,
        isSpaceC, isDigitC, isAlphaC, isAlnumC, substr, keywords, symbolChars, readNumber,
        readString, readSymbol, numGo, strGo, lineGo, blockGo]
    simp only [executeFuel, ht]
    rfl
  · intro hcontra
    simp only [Value.text.injEq] at hcontra
    exact absurd hcontra (by decide)

/-- C2: the spec says `Runtime::evaluate` returns exactly one `Value`,
with `Void` for an empty Program/Block and a zero-iteration Loop.  The
code actually returns a *null* `ValuePtr` in those cases (`ValuePtr
result;` is never initialised), modelled as `none`; callers such as
main.cpp dereference the result, so this is a crash, not `Void`.  The
theorem evaluates the empty program end to end. -/
theorem az_C2_nullResult :
    executeFuel 20 "" = .ok (none, initState)
    ∧ (none : Option Value) ≠ some .void := by
  constructor
  · have ht : tokenize "" = [Token.mk .eofTok "" 1 1] := by
      simp [tokenize, tokGo]
    simp only [executeFuel, ht]
    rfl
  · simp

set_option maxRecDepth 8000 in
/-- C3 counterexample: for a Loop whose count expression yields `2.5`,
the claim demands `floor(2.5) = 2` body evaluations, but the code
(`for (double i = 0; i < iterations; i++)`) runs the body three times:
the output trace has three lines and the result is the third iteration's
value. -/
theorem az_C3_cex :
    eval 5 c3CexLoop initState
      = .ok (some (.num 2), ⟨[], [], initModules, [], ["0.000000", "1.000000", "2.000000"]⟩)
    ∧ (⟨[], [], initModules, [], ["0.000000", "1.000000", "2.000000"]⟩ : EvalState).output.length = 3
    ∧ Int.floor ((5 : ℚ) / 2) = 2
    ∧ (3 : ℕ) ≠ 2 := by
  refine ⟨rfl, rfl, by decide, by decide⟩

/-- One body evaluation of `say step` inside the loop frame: it prints
the rendered step value and returns it, leaving everything else
unchanged. -/
theorem c3_step_run (q : ℚ) (i : ℕ) (o : List String) :
    eval 4 c3Step
        (⟨[("c", some (.num q))], [], initModules, [[("step", some (.num i))]], o⟩ : EvalState)
      = .ok (some (.num i),
          ⟨[("c", some (.num q))], [], initModules, [[("step", some (.num i))]],
            o ++ [numToString6 i]⟩) :=
  rfl

/-- The loop body of `c3Loop` runs once for every natural `i` with
`i < count`, printing the step values in order. -/
theorem c3_loopGo_run (q : ℚ) :
    ∀ (k i : ℕ) (res : Option Value) (o : List String), iterCount q - i = k →
      loopGo (fun nd s => eval 4 nd s) c3Step q k i res
          (⟨[("c", some (.num q))], [], initModules, [], o⟩ : EvalState)
        = .ok ((if k = 0 then res else some (.num ((i + k - 1 : ℕ) : ℚ))),
            ⟨[("c", some (.num q))], [], initModules, [],
              o ++ (List.range' i k).map (fun j => numToString6 (j : ℚ))⟩) := by
  intro k
  induction k with
  | zero =>
    intro i res o hk
    have hq : ¬ ((i : ℚ) < q) := by
      rw [← lt_iterCount_iff]
      omega
    rw [loopGo.eq_def, if_neg hq]
    simp [List.range']
  | succ j ihj =>
    intro i res o hk
    have hq : (i : ℚ) < q := by
      rw [← lt_iterCount_iff]
      omega
    rw [loopGo.eq_def, if_pos hq]
    have hst : setVariable (pushScope
          (⟨[("c", some (.num q))], [], initModules, [], o⟩ : EvalState)) "step" (some (.num i))
        = (⟨[("c", some (.num q))], [], initModules, [[("step", some (.num i))]], o⟩ : EvalState) := rfl
    rw [hst, c3_step_run q i o]
    show loopGo (fun nd s => eval 4 nd s) c3Step q j (i + 1) (some (.num i))
        (⟨[("c", some (.num q))], [], initModules, [], o ++ [numToString6 i]⟩ : EvalState) = _
    rw [ihj (i + 1) (some (.num i)) (o ++ [numToString6 i]) (by omega)]
    rcases Nat.eq_zero_or_pos j with hj | hj
    · subst hj
      simp [List.range']
    · rw [if_neg (by omega), if_neg (by omega)]
      have harith : (i + 1) + j - 1 = i + (j + 1) - 1 := by omega
      rw [harith]
      simp [List.range'_succ]

/-- C3 (amended): for every Loop node, the count expression is evaluated
exactly once before iterating, and the body is then evaluated once for
every natural number `i < count` — that is `max(0, ⌈count⌉)` times (the
ceiling, not the floor, for positive non-integer counts; zero times for
non-positive counts) — each iteration in a freshly pushed scope binding
`step` to the zero-based index `i` as a Number.  Stated for every real
count `q` via the loop `loop c do say step end` with global `c ↦ q`: the
output is exactly the rendered indices `0 … iterCount q - 1`, the result
is the last iteration's value (the null pointer when no iteration ran),
and the state (globals, scope stack) is restored. -/
theorem az_C3_loopIterations (q : ℚ) :
    eval 5 c3Loop (c3St q)
      = .ok ((if iterCount q = 0 then none else some (.num ((iterCount q - 1 : ℕ) : ℚ))),
          ⟨[("c", some (.num q))], [], initModules, [],
            (List.range (iterCount q)).map (fun j => numToString6 (j : ℚ))⟩) := by
  have h0 : eval 5 c3Loop (c3St q)
      = loopGo (fun nd s => eval 4 nd s) c3Step q (iterCount q) 0 none (c3St q) := rfl
  rw [h0]
  have h1 := c3_loopGo_run q (iterCount q) 0 none [] (by omega)
  rw [show c3St q = (⟨[("c", some (.num q))], [], initModules, [], []⟩ : EvalState) from rfl, h1]
  simp [List.range_eq_range']

set_option maxRecDepth 8000 in
/-- C4 counterexample: `put` with value `7` (read from `y`) and target
`x` in a state where the *global* table already binds `x ↦ 5` and an
(empty) scope frame is active.  The claim demands the nearest existing
binding — the global `x` — be overwritten with `7`; the code instead
creates a fresh binding in the innermost frame and leaves the global
`x` at `5`. -/
theorem az_C4_cex :
    eval 5 c4Put c4CexSt
      = .ok (some (.num 7),
          ⟨[("x", some (.num 5)), ("y", some (.num 7))], [], initModules,
            [[("x", some (.num 7))]], []⟩)
    ∧ (⟨[("x", some (.num 5)), ("y", some (.num 7))], [], initModules,
        [[("x", some (.num 7))]], []⟩ : EvalState).globals.lookup "x" = some (some (.num 5))
    ∧ (some (Value.num 5) : Option Value) ≠ some (.num 7) := by
  refine ⟨rfl, rfl, ?_⟩
  intro hcontra
  simp only [Option.some.injEq, Value.num.injEq] at hcontra
  exact absurd hcontra (by decide)

set_option maxRecDepth 8000 in
/-- C4 (amended): `Runtime::setVariable` always writes into the innermost
active scope frame (globals only when no frame is active), even when an
enclosing frame or the global table already binds the name; hence a
variable declared before a loop and assigned — without re-declaring —
inside the loop body holds its *original* value after the loop ends (the
frame holding the new binding is popped with the iteration).  Stated for
all initial and assigned values `q`, `r`. -/
theorem az_C4_innermostAssign (q r : ℚ) :
    eval 5 c4Put (c4St1 q r)
      = .ok (some (.num r),
          ⟨[("x", some (.num q)), ("y", some (.num r))], [], initModules,
            [[("x", some (.num r))]], []⟩)
    ∧ eval 5 c4Loop (c4St0 q r) = .ok (some (.num r), c4St0 q r) :=
  ⟨rfl, rfl⟩

set_option maxRecDepth 8000 in
/-- C5: the spec says `declare x from 5` followed by bare `x` yields
`Number(5.0)`.  In the code, `declare` is missing from `Lexer::keywords`,
so it lexes as an identifier; `Parser::parse` skips identifier tokens at
the top level, so the whole source parses to an empty Program, whose
evaluation returns a null `ValuePtr` — not `Number(5.0)`.  (Even via a
recognised keyword such as `form`, the FORM evaluation reads the name
from `children[1]->value`, which the parser leaves empty.) -/
theorem az_C5_declare :
    executeFuel 20 "declare x from 5\nx" = .ok (none, initState)
    ∧ (none : Option Value) ≠ some (.num 5) := by
  constructor
  · have ht : tokenize "declare x from 5\nx" =
        [Token.mk .identifier "declare" 1 8, Token.mk .identifier "x" 1 10,
         Token.mk .keyword "from" 1 15, Token.mk .number "5" 1 17,
         Token.mk .identifier "x" 2 2, Token.mk .eofTok "" 2 2] := by
      simp [tokenize, tokGo, skipWs, skipComment, readIdentifier, identGo, digitsEnd, charAt,
        isSpaceC, isDigitC, isAlphaC, isAlnumC, substr, keywords, symbolChars, readNumber,
        readString, readSymbol, numGo, strGo, lineGo, blockGo]
    simp only [executeFuel, ht]
    rfl
  · simp

/-- C6: the structure of `Value::toNumber` matches the claim except for
the `four_g` entry.  The source computes it as `4 * 1024 * 1024 * 1024`
in `int` arithmetic, which overflows 32 bits (undefined behaviour,
wrapping to `0`), so `toNumber(Text("four_g"))` is `0.0`, not the
claimed `4294967296`.  The other cited values are as claimed. -/
theorem az_C6_toNumber :
    Value.toNumber (.text "four_g") = 0
    ∧ Value.toNumber (.text "four_zero_zero_zero") = 4000
    ∧ Value.toNumber (.text "twelve") = 12
    ∧ Value.toNumber (.text "not-a-number") = 0
    ∧ (0 : ℚ) ≠ 4294967296 := by
  refine ⟨by decide, by decide, by decide, by decide, by norm_num⟩

/-- One step of the top-level parse loop on the `send` token stream: the
dispatcher sends `send` to `parseGive`, which rejects it without
consuming anything, so the loop comes back to the same position with one
unit of fuel burnt. -/
theorem pTopLoop_send_step (f : Nat) (acc : List ASTNode) :
    pTopLoop (f + 2) sendToks 0 acc = pTopLoop (f + 1) sendToks 0 (acc ++ []) :=
  rfl

/-- The top-level parse loop never finishes on the `send` stream,
whatever the fuel. -/
theorem c7_topLoop_send : ∀ (f : Nat) (acc : List ASTNode),
    pTopLoop f sendToks 0 acc = none := by
  intro f
  induction f with
  | zero => intro acc; rfl
  | succ f ih =>
    intro acc
    cases f with
    | zero => rfl
    | succ f' =>
      show pTopLoop (f' + 2) sendToks 0 acc = none
      rw [pTopLoop_send_step f' acc]
      exact ih (acc ++ [])

set_option maxRecDepth 8000 in
/-- C7: the spec says `Parser::parse` terminates on every finite token
sequence.  It does not: on the token stream of the source `send` (and
likewise an artificial `yield` keyword token), `parse` dispatches to
`parseGive`, which accepts only `give`/`return` and returns `nullptr`
without consuming the token, so the top-level loop spins forever.  In
the fuelled model the parse returns `none` (fuel exhausted) for *every*
fuel, which is exactly non-termination of the original loop. -/
theorem az_C7_parseDiverges :
    ∀ fuel : Nat, parseProg fuel (tokenize "send") = none := by
  intro fuel
  have ht : tokenize "send" = sendToks := by
    simp [tokenize, tokGo, skipWs, skipComment, readIdentifier, identGo, digitsEnd, charAt,
      isSpaceC, isDigitC, isAlphaC, isAlnumC, substr, keywords, symbolChars, readNumber,
      readString, readSymbol, numGo, strGo, lineGo, blockGo, sendToks]
  rw [ht]
  cases fuel with
  | zero => rfl
  | succ f => simp only [parseProg, c7_topLoop_send f []]

/-- C10: evaluating a Call node whose callee name is registered neither
as a module nor in the function table returns `Void` without evaluating
any argument expression and leaves the entire runtime state — globals,
functions, module registry, scope stack, and output — unchanged. -/
theorem az_C10_unknownCall (f : Nat) (c0 : ASTNode) (cs : List ASTNode) (v : String)
    (tk : Token) (st : EvalState)
    (hm : st.modules.contains c0.value = false)
    (hf : st.functions.lookup c0.value = none) :
    eval (f + 1) (ASTNode.mk .call v (c0 :: cs) tk) st = .ok (some .void, st) := by
  have h : eval (f + 1) (ASTNode.mk .call v (c0 :: cs) tk) st
      = evalCallN (fun nd s => eval f nd s) (ASTNode.mk .call v (c0 :: cs) tk) st := rfl
  rw [h]
  unfold evalCallN
  dsimp only [ASTNode.children]
  cases cs with
  | nil =>
    rw [hf]
  | cons m argNodes =>
    rw [hm, hf]
    rfl

/-- C10 witness: a call to the unregistered name `nosuch` at a concrete
state. -/
theorem az_C10_unknownCall_witness :
    eval 1 (ASTNode.mk .call "" [ASTNode.mk .identifier "nosuch" [] tkDflt] tkDflt) initState
      = .ok (some .void, initState) :=
  az_C10_unknownCall 0 (ASTNode.mk .identifier "nosuch" [] tkDflt) [] "" tkDflt initState
    (by decide) rfl

theorem readNumber_type (cs : List Char) (pos line col : Nat) :
    (readNumber cs pos line col).1.type = .number := rfl

theorem readString_type (cs : List Char) (pos line col : Nat) :
    (readString cs pos line col).1.type = .string := rfl

theorem readSymbol_type (cs : List Char) (pos line col : Nat) :
    (readSymbol cs pos line col).1.type = .symbol := rfl

theorem readIdentifier_type (cs : List Char) (pos line col : Nat) :
    (readIdentifier cs pos line col).1.type ≠ .eofTok := by
  unfold readIdentifier
  simp only []
  repeat' split
  all_goals simp

theorem tokGo_no_eof (cs : List Char) :
    ∀ (n pos line col : Nat), cs.length - pos ≤ n →
      ∀ t ∈ (tokGo cs pos line col).1, t.type ≠ .eofTok := by
  intro n
  induction n with
  | zero =>
    intro pos line col hle t ht
    rw [tokGo.eq_def, dif_neg (by omega)] at ht
    simp at ht
  | succ n ih =>
    intro pos line col hle t ht
    rw [tokGo.eq_def] at ht
    by_cases h1 : pos < cs.length
    case neg => rw [dif_neg h1] at ht; simp at ht
    rw [dif_pos h1] at ht
    simp only [] at ht
    have hws := skipWs_ge cs pos line col
    by_cases h2 : (skipWs cs pos line col).1 < cs.length
    case neg => rw [dif_neg h2] at ht; simp at ht
    rw [dif_pos h2] at ht
    by_cases hc : charAt cs (skipWs cs pos line col).1 = '/' ∧
        (skipWs cs pos line col).1 + 1 < cs.length ∧
        (charAt cs ((skipWs cs pos line col).1 + 1) = '/' ∨
         charAt cs ((skipWs cs pos line col).1 + 1) = '*')
    · rw [dif_pos hc] at ht
      have hgt := skipComment_gt cs (skipWs cs pos line col).1
        (skipWs cs pos line col).2.1 (skipWs cs pos line col).2.2 hc.1 hc.2.1 hc.2.2
      exact ih _ _ _ (by omega) t ht
    rw [dif_neg hc] at ht
    by_cases hd : isDigitC (charAt cs (skipWs cs pos line col).1) = true
    · rw [dif_pos hd] at ht
      simp only [List.mem_cons] at ht
      rcases ht with rfl | ht
      · rw [readNumber_type]; simp
      · have hgt := readNumber_gt cs (skipWs cs pos line col).1
          (skipWs cs pos line col).2.1 (skipWs cs pos line col).2.2 h2 hd
        exact ih _ _ _ (by omega) t ht
    rw [dif_neg hd] at ht
    by_cases hq : charAt cs (skipWs cs pos line col).1 = '"'
    · rw [if_pos hq] at ht
      simp only [List.mem_cons] at ht
      rcases ht with rfl | ht
      · rw [readString_type]; simp
      · have hgt := readString_gt cs (skipWs cs pos line col).1
          (skipWs cs pos line col).2.1 (skipWs cs pos line col).2.2
        exact ih _ _ _ (by omega) t ht
    rw [if_neg hq] at ht
    by_cases hi : isAlphaC (charAt cs (skipWs cs pos line col).1) = true ∨
        charAt cs (skipWs cs pos line col).1 = '_'
    · rw [dif_pos hi] at ht
      simp only [List.mem_cons] at ht
      rcases ht with rfl | ht
      · exact readIdentifier_type cs (skipWs cs pos line col).1
          (skipWs cs pos line col).2.1 (skipWs cs pos line col).2.2
      · have hgt := readIdentifier_gt cs (skipWs cs pos line col).1
          (skipWs cs pos line col).2.1 (skipWs cs pos line col).2.2 h2 hi
        exact ih _ _ _ (by omega) t ht
    rw [dif_neg hi] at ht
    by_cases hs : symbolChars.contains (charAt cs (skipWs cs pos line col).1) = true
    · rw [if_pos hs] at ht
      simp only [List.mem_cons] at ht
      rcases ht with rfl | ht
      · rw [readSymbol_type]; simp
      · have hsym : (readSymbol cs (skipWs cs pos line col).1 (skipWs cs pos line col).2.1
            (skipWs cs pos line col).2.2).2.1 = (skipWs cs pos line col).1 + 1 := rfl
        rw [hsym] at ht
        exact ih _ _ _ (by omega) t ht
    · rw [if_neg hs] at ht
      exact ih _ _ _ (by omega) t ht

/-- C8: for every input string, `Lexer::tokenize` terminates (the model
is a total function whose termination measure mirrors the loops'
progress), never raises an error, and returns a token list whose last
element is the `EndOfInput` token and which contains no other
`EndOfInput` token. -/
theorem az_C8_tokenize (s : String) :
    ∃ (pre : List Token) (l c : Nat),
      tokenize s = pre ++ [Token.mk .eofTok "" l c]
      ∧ ∀ t ∈ pre, t.type ≠ .eofTok := by
  refine ⟨(tokGo s.data 0 1 1).1, (tokGo s.data 0 1 1).2.1, (tokGo s.data 0 1 1).2.2, rfl, ?_⟩
  exact fun t ht => tokGo_no_eof s.data s.data.length 0 1 1 (by omega) t ht

/-- C9 witness: a concrete `say "hi"` evaluation, whose final scope stack
has the entry depth. -/
theorem az_C9_scopeDepth_witness :
    (⟨[], [], initModules, [], ["hi"]⟩ : EvalState).scopes.length = initState.scopes.length :=
  az_C9_scopeDepth 2 sayHiNode initState (some (.text "hi"))
    ⟨[], [], initModules, [], ["hi"]⟩ rfl

end Azalea
